import Mathlib

/-! Omit-empty union encoding of aryehlev/avro.

A shallow embedding of `codec_omitempty.go`: the encoder that elides an empty
host value of a nullable union field to the null branch, and the per-kind
emptiness predicates built by `isEmptyFunc`.

* A pointer to a host value is modelled by the value it refers to; the type of
  that value is fixed by the kind of the Go type (`HostVal`).
* Integers are mathematical integers, floating-point numbers are their IEEE-754
  bit patterns, strings are byte sequences.
* The writer is the byte buffer it has accumulated together with its error slot.
-/

namespace Avro

/-! ## Go types and values -/

/-- The kinds of Go types, as enumerated by reflect.Kind. -/
inductive Kind where
  | Invalid
  | Bool
  | Int
  | Int8
  | Int16
  | Int32
  | Int64
  | Uint
  | Uint8
  | Uint16
  | Uint32
  | Uint64
  | Uintptr
  | Float32
  | Float64
  | Complex64
  | Complex128
  | Array
  | Chan
  | Func
  | Interface
  | Map
  | Ptr
  | Slice
  | String
  | Struct
  | UnsafePointer
  deriving DecidableEq, Repr

/-- A reflect2.Type as far as this file reads it: the name of the type and the
result of its Kind method. A named type such as MyCustomInt has its own name and
the kind of its underlying type. -/
structure GoType where
  Name : String
  Kind : Kind
  deriving DecidableEq, Repr

/-- The two words of a Go interface value: the dynamic type word (nil for the nil
interface) and the data word (nil when the interface holds a nil pointer). -/
structure Eface (α : Type) where
  typ : Option GoType
  data : Option α

/-- A Go value as an element of a slice, map, array or struct, or as the target
of a pointer or of an interface. -/
inductive Value where
  | bool (b : Bool)
  | int (v : Int)
  | uint (v : Nat)
  | float32 (bits : Nat)
  | float64 (bits : Nat)
  | complex64 (re im : Nat)
  | complex128 (re im : Nat)
  | string (s : List UInt8)
  | slice (elems : Option (List Value))
  | map (entries : Option (List (Value × Value)))
  | ptr (target : Option Value)
  | iface (e : Eface Value)
  | struct (fields : List Value)
  | array (elems : List Value)
  | chan (isNil : Bool)
  | func (isNil : Bool)
  | rawptr (isNil : Bool)

/-- What an unsafe.Pointer to a value of a type of the given kind refers to.
Signed integers are integers, unsigned integers are naturals, a float is its
bit pattern, a complex number is the pair of the bit patterns of its parts, a
string is its bytes, a slice or map is nil (none) or its contents, a pointer is
nil (none) or its target. -/
def HostVal : Kind → Type
  | .Bool => Bool
  | .Int | .Int8 | .Int16 | .Int32 | .Int64 => Int
  | .Uint | .Uint8 | .Uint16 | .Uint32 | .Uint64 | .Uintptr => Nat
  | .Float32 | .Float64 => Nat
  | .Complex64 | .Complex128 => Nat × Nat
  | .String => List UInt8
  | .Slice => Option (List Value)
  | .Map => Option (List (Value × Value))
  | .Ptr => Option Value
  | .Interface => Eface Value
  | .Array | .Struct => List Value
  | .Chan | .Func | .UnsafePointer => Bool
  | .Invalid => Unit

/-! ## IEEE-754 comparison -/

/-- An IEEE-754 binary floating-point datum: a NaN, an infinity, or the finite
number (-1)^neg * sig * 2^exp. -/
inductive FloatVal where
  | nan
  | inf (neg : Bool)
  | fin (neg : Bool) (sig : Nat) (exp : Int)
  deriving DecidableEq, Repr

/-- The datum denoted by a bit pattern of a binary format with ebits exponent
bits and mbits fraction bits (8 and 23 for float32, 11 and 52 for float64). -/
def decodeFloat (ebits mbits bits : Nat) : FloatVal :=
  let neg := (bits / 2 ^ (ebits + mbits)) % 2 == 1
  let e := (bits / 2 ^ mbits) % 2 ^ ebits
  let m := bits % 2 ^ mbits
  let bias : Int := 2 ^ (ebits - 1) - 1
  if e = 2 ^ ebits - 1 then
    if m = 0 then .inf neg else .nan
  else if e = 0 then
    .fin neg m (1 - bias - mbits)
  else
    .fin neg (2 ^ mbits + m) (e - bias - mbits)

/-- The Go operator == on two floating-point operands of one type: IEEE-754
equality. A NaN is equal to nothing, infinities are equal when their signs
agree, and finite numbers are equal when they denote the same real number: both
are zero (so -0 == +0), or sign, significand and exponent agree (within one
format decodeFloat gives each non-zero finite number one representation). -/
def floatEq : FloatVal → FloatVal → Bool
  | .fin n1 s1 e1, .fin n2 s2 e2 =>
    (s1 == 0 && s2 == 0) || (n1 == n2 && s1 == s2 && e1 == e2)
  | .inf n1, .inf n2 => n1 == n2
  | _, _ => false

/-- The untyped constant 0 converted to the floating-point type with ebits
exponent bits and mbits fraction bits: positive zero. -/
def floatZero (ebits mbits : Nat) : FloatVal :=
  decodeFloat ebits mbits 0

/-! ## reflect2 accessors -/

/-- The method UnsafeLengthOf of reflect2.UnsafeSliceType: the Len field of the
slice header, which is 0 for the nil slice. -/
def UnsafeSliceType.UnsafeLengthOf : Option (List Value) → Nat
  | none => 0
  | some elems => elems.length

/-- The method UnsafeIsNil of reflect2.UnsafeMapType. -/
def UnsafeMapType.UnsafeIsNil : Option (List (Value × Value)) → Bool
  | none => true
  | some _ => false

/-- A reflect2 map iterator: the entries not yet visited. -/
structure UnsafeMapIterator where
  rest : List (Value × Value)

/-- The method UnsafeIterate of reflect2.UnsafeMapType. -/
def UnsafeMapType.UnsafeIterate : Option (List (Value × Value)) → UnsafeMapIterator
  | none => ⟨[]⟩
  | some entries => ⟨entries⟩

/-- The method HasNext of a reflect2 map iterator. -/
def UnsafeMapIterator.HasNext (iter : UnsafeMapIterator) : Bool :=
  !iter.rest.isEmpty

/-- The method UnsafeIsNil of reflect2.UnsafePtrType. -/
def UnsafePtrType.UnsafeIsNil : Option Value → Bool
  | none => true
  | some _ => false

/-! ## The writer and the binary primitives -/

/-- The Writer: the bytes written so far and the first error recorded. -/
structure Writer where
  buf : List UInt8
  Error : Option String
  deriving DecidableEq, Repr

/-- Modelled from the spec: the zigzag transform of a signed value of the given
width, (n << 1) ^ (n >> width-1), read as an unsigned value of that width. The
primitive layer of the writer is not among the source files. -/
def zigzag (width : Nat) (n : Int) : Nat :=
  ((n * 2) % 2 ^ width).toNat ^^^ ((n >>> (width - 1)) % 2 ^ width).toNat

/-- Little-endian base-128 digits of n, continuation bit set on all but the last
byte; the first argument bounds the number of bytes after the first. -/
def varintFuel : Nat → Nat → List UInt8
  | 0, n => [n.toUInt8]
  | fuel + 1, n =>
    if n < 128 then [n.toUInt8]
    else (n % 128 + 128).toUInt8 :: varintFuel fuel (n / 128)

/-- Modelled from the spec: a little-endian base-128 varint, 7 data bits per
byte, continuation bit set on all but the final byte. The primitive layer of the
writer is not among the source files. -/
def varint (n : Nat) : List UInt8 :=
  varintFuel n n

/-- Modelled from the spec: the method WriteInt of the Writer appends the
primitive int (zigzag over 32 bits, then varint). -/
def Writer.WriteInt (w : Writer) (i : Int) : Writer :=
  ⟨w.buf ++ varint (zigzag 32 i), w.Error⟩

/-- Modelled from the spec: the method WriteLong of the Writer appends the
primitive long (zigzag over 64 bits, then varint). -/
def Writer.WriteLong (w : Writer) (i : Int) : Writer :=
  ⟨w.buf ++ varint (zigzag 64 i), w.Error⟩

/-- Modelled from the spec: the method WriteBool of the Writer appends a single
byte, 0x00 for false and 0x01 for true. -/
def Writer.WriteBool (w : Writer) (b : Bool) : Writer :=
  ⟨w.buf ++ [if b then 0x01 else 0x00], w.Error⟩

/-! ## Encoders -/

/-- The interface ValEncoder: an encoder reads the host value behind a pointer
and acts on the writer. -/
structure ValEncoder (α : Type) where
  Encode : α → Writer → Writer

/-- Modelled from the spec: the encoder of an int64 host value for a long schema,
a thin adapter to the primitive long. The native codecs are not among the source
files. -/
def longEncoder : ValEncoder Int :=
  ⟨fun ptr w => w.WriteLong ptr⟩

/-- Modelled from the spec: the encoder of a bool host value for a boolean
schema, a thin adapter to the primitive boolean. The native codecs are not among
the source files. -/
def boolEncoder : ValEncoder Bool :=
  ⟨fun ptr w => w.WriteBool ptr⟩

/-- The struct omitEmptyEncoder of codec_omitempty.go. The two indices are
int32 values. -/
structure omitEmptyEncoder (α : Type) where
  encoder : ValEncoder α
  nullIdx : Int
  typeIdx : Int
  isEmpty : α → Bool

/-- The method Encode of omitEmptyEncoder. -/
def omitEmptyEncoder.Encode {α : Type} (e : omitEmptyEncoder α) (ptr : α) (w : Writer) : Writer :=
  if e.isEmpty ptr then
    w.WriteInt e.nullIdx
  else
    e.encoder.Encode ptr (w.WriteInt e.typeIdx)

/-- The function isEmptyFunc of codec_omitempty.go: the emptiness predicate for
a type, chosen by the kind of the type alone. The type assertions on the slice,
map and pointer cases always succeed for a type of that kind. -/
def isEmptyFunc (typ : GoType) : HostVal typ.Kind → Bool :=
  match typ.Kind with
  | .Bool => fun (ptr : Bool) => !ptr
  | .Int => fun (ptr : Int) => ptr == 0
  | .Int8 => fun (ptr : Int) => ptr == 0
  | .Int16 => fun (ptr : Int) => ptr == 0
  | .Int32 => fun (ptr : Int) => ptr == 0
  | .Int64 => fun (ptr : Int) => ptr == 0
  | .Uint => fun (ptr : Nat) => ptr == 0
  | .Uint8 => fun (ptr : Nat) => ptr == 0
  | .Uint16 => fun (ptr : Nat) => ptr == 0
  | .Uint32 => fun (ptr : Nat) => ptr == 0
  | .Uint64 => fun (ptr : Nat) => ptr == 0
  | .Float32 => fun (ptr : Nat) => floatEq (decodeFloat 8 23 ptr) (floatZero 8 23)
  | .Float64 => fun (ptr : Nat) => floatEq (decodeFloat 11 52 ptr) (floatZero 11 52)
  | .String => fun (ptr : List UInt8) => ptr == []
  | .Slice => fun ptr => UnsafeSliceType.UnsafeLengthOf ptr == 0
  | .Map => fun ptr =>
    if UnsafeMapType.UnsafeIsNil ptr then
      true
    else
      let iter := UnsafeMapType.UnsafeIterate ptr
      !iter.HasNext
  | .Ptr => fun ptr => UnsafePtrType.UnsafeIsNil ptr
  | .Interface => fun (ptr : Eface Value) => ptr.typ.isNone
  | _ => fun _ => false

/-! ## Types and encoders used in the examples -/

def boolType : GoType := ⟨"bool", .Bool⟩
def int64Type : GoType := ⟨"int64", .Int64⟩
def float64Type : GoType := ⟨"float64", .Float64⟩

/-- The empty writer. -/
def emptyWriter : Writer := ⟨[], none⟩

/-- The bit pattern, read as a natural number below 2^w, of a signed integer
held in w bits in two-complement form. -/
def twosComplement (w : Nat) (v : Int) : Nat :=
  (v % 2 ^ w).toNat

/-- The function isEmptyFunc of empty_check.go, the second declaration of the
function in the package. -/
def empty_check.isEmptyFunc (typ : GoType) : HostVal typ.Kind → Bool :=
  match typ.Kind with
  | .Bool => fun (ptr : Bool) => !ptr
  | .Int => fun (ptr : Int) => ptr == 0
  | .Int8 => fun (ptr : Int) => ptr == 0
  | .Int16 => fun (ptr : Int) => ptr == 0
  | .Int32 => fun (ptr : Int) => ptr == 0
  | .Int64 => fun (ptr : Int) => ptr == 0
  | .Uint => fun (ptr : Nat) => ptr == 0
  | .Uint8 => fun (ptr : Nat) => ptr == 0
  | .Uint16 => fun (ptr : Nat) => ptr == 0
  | .Uint32 => fun (ptr : Nat) => ptr == 0
  | .Uint64 => fun (ptr : Nat) => ptr == 0
  | .Float32 => fun (ptr : Nat) => floatEq (decodeFloat 8 23 ptr) (floatZero 8 23)
  | .Float64 => fun (ptr : Nat) => floatEq (decodeFloat 11 52 ptr) (floatZero 11 52)
  | .String => fun (ptr : List UInt8) => ptr == []
  | .Slice => fun ptr => UnsafeSliceType.UnsafeLengthOf ptr == 0
  | .Map => fun ptr =>
    if UnsafeMapType.UnsafeIsNil ptr then
      true
    else
      let iter := UnsafeMapType.UnsafeIterate ptr
      !iter.HasNext
  | .Ptr => fun ptr => UnsafePtrType.UnsafeIsNil ptr
  | .Interface => fun (ptr : Eface Value) => ptr.typ.isNone
  | _ => fun _ => false

/-- The length of a map, 0 for the nil map. -/
def mapLen : Option (List (Value × Value)) → Nat
  | none => 0
  | some entries => entries.length

/-- The emptiness rule of the omitempty option of encoding/json, in the words of
the claim that compares isEmptyFunc with it: a value is empty exactly when it is
false, 0 (any signed or unsigned integer kind including uintptr, or a float), a
nil pointer, a nil interface value, or an array, map, slice or string of length
zero. -/
def jsonIsEmptyValue : (k : Kind) → HostVal k → Bool
  | .Bool, (b : Bool) => b == false
  | .Int, (v : Int) => v == 0
  | .Int8, (v : Int) => v == 0
  | .Int16, (v : Int) => v == 0
  | .Int32, (v : Int) => v == 0
  | .Int64, (v : Int) => v == 0
  | .Uint, (v : Nat) => v == 0
  | .Uint8, (v : Nat) => v == 0
  | .Uint16, (v : Nat) => v == 0
  | .Uint32, (v : Nat) => v == 0
  | .Uint64, (v : Nat) => v == 0
  | .Uintptr, (v : Nat) => v == 0
  | .Float32, (b : Nat) => floatEq (decodeFloat 8 23 b) (floatZero 8 23)
  | .Float64, (b : Nat) => floatEq (decodeFloat 11 52 b) (floatZero 11 52)
  | .Ptr, (p : Option Value) => p.isNone
  | .Interface, (e : Eface Value) => e.typ.isNone
  | .Array, (a : List Value) => a.length == 0
  | .Map, (m : Option (List (Value × Value))) => mapLen m == 0
  | .Slice, (x : Option (List Value)) => UnsafeSliceType.UnsafeLengthOf x == 0
  | .String, (x : List UInt8) => x.length == 0
  | _, _ => false

/-! ## The schema model and the value codecs, modelled from the spec

The schema model, the type binding resolver and the codec compiler are not among
the source files; only their tests are. They are modelled here from the spec, as
an interpreter that walks the schema. -/

/-- Modelled from the spec: a default literal of a record field (section 3), a
value in the literal domain of the schema: null, a boolean, a number, a string,
a list, or a literal map for a sub-record. -/
inductive Literal where
  | null
  | bool (b : Bool)
  | number (v : Int)
  | string (s : List UInt8)
  | array (items : List Literal)
  | object (fields : List (String × Literal))

/-- Modelled from the spec: the SchemaNode of section 3. A record field is its
name, its type and its optional default literal; the ordinal position of a field
is its position in the list. Fixed, Enum and the logical wrapper are left out. -/
inductive Schema where
  | null
  | boolean
  | int
  | long
  | float
  | double
  | bytes
  | string
  | array (items : Schema)
  | map (values : Schema)
  | union (branches : List Schema)
  | record (name : String) (fields : List (String × Schema × Option Literal))

/-- Modelled from the spec: a nullable union (section 4.2, step 3), taken here
as a union of a null branch and one other branch, in either order, which is what
an omitEmptyEncoder, with its one typeIdx and its one wrapped encoder, serves.
The result is the index of the null branch, the index of the other branch, and
the other branch. Invariant I2 words the condition as a union containing a null
branch; whether a union of three or more branches is eligible is decided by code
that is not among the source files, and nothing is proved here about the
omission flag on such a union. -/
def Schema.nullable : Schema → Option (Int × Int × Schema)
  | .union [.null, t] => some (0, 1, t)
  | .union [t, .null] => some (1, 0, t)
  | _ => none

/-- Modelled from the spec: record an error in the writer, keeping the bytes
written so far (section 7: bytes already written are not rolled back) and the
first error. The writer is not among the source files. -/
def Writer.fail (w : Writer) (msg : String) : Writer :=
  match w.Error with
  | some _ => w
  | none => ⟨w.buf, some msg⟩

/-- Modelled from the spec: the low n bytes of a bit pattern, least significant
byte first (section 4.4, little-endian). -/
def leBytes : Nat → Nat → List UInt8
  | 0, _ => []
  | n + 1, bits => (bits % 256).toUInt8 :: leBytes n (bits / 256)

/-- Modelled from the spec: float is the raw 4-byte little-endian IEEE-754 bit
pattern (section 4.4). -/
def Writer.WriteFloat (w : Writer) (bits : Nat) : Writer :=
  ⟨w.buf ++ leBytes 4 bits, w.Error⟩

/-- Modelled from the spec: double is the raw 8-byte little-endian IEEE-754 bit
pattern (section 4.4). -/
def Writer.WriteDouble (w : Writer) (bits : Nat) : Writer :=
  ⟨w.buf ++ leBytes 8 bits, w.Error⟩

/-- Modelled from the spec: bytes and string are a primitive long length prefix,
the byte count, followed by the raw bytes (section 4.4). -/
def Writer.WriteBytes (w : Writer) (b : List UInt8) : Writer :=
  ⟨(w.WriteLong b.length).buf ++ b, w.Error⟩

/-- Modelled from the spec: see WriteBytes. -/
def Writer.WriteString (w : Writer) (s : List UInt8) : Writer :=
  w.WriteBytes s

/-- Modelled from the spec: the bytes of a host byte sequence, a slice whose
elements are all unsigned integers. -/
def bytesOf : List Value → Option (List UInt8)
  | [] => some []
  | .uint b :: rest => (bytesOf rest).map (fun bs => b.toUInt8 :: bs)
  | _ :: _ => none

/-- Modelled from the spec: the value a union matches against its branches and
writes through the branch found. A present reference stands for the value it
points at (section 8: a present reference pointing at the numeric value 0
encodes as the non-null branch with value 0); an absent reference, and every
value that is not a reference, stands for itself. -/
def Value.deref : Value → Value
  | .ptr (some t) => t
  | v => v

/-- Modelled from the spec: whether the dynamic kind of a runtime value matches
the kind of a union branch (section 4.3, Union). A nil reference matches null,
signed integer kinds match int and long, a byte slice matches bytes, any slice
matches array. Unsigned integers other than bytes are left out. A union applies
this to the value behind a present reference, see Value.deref. -/
def Schema.accepts : Schema → Value → Bool
  | .null, .ptr none => true
  | .boolean, .bool _ => true
  | .int, .int _ => true
  | .long, .int _ => true
  | .float, .float32 _ => true
  | .double, .float64 _ => true
  | .string, .string _ => true
  | .bytes, .slice x => (bytesOf (x.getD [])).isSome
  | .array _, .slice _ => true
  | .map _, .map _ => true
  | .record _ _, .struct _ => true
  | _, _ => false

/-- Modelled from the spec: the encoder of a runtime value for a schema node
(section 4.3). Scalars are thin adapters to the binary primitives; an array is
one block, the item count as a primitive long and the items, followed by a
terminating zero count, and an empty array is the terminating zero alone; a map
likewise, each entry being its key as a string and its value; a union writes the
zero-based index of the first branch that matches the value as a primitive long
and then the value through that branch, a present reference being matched and
written as the value it points at. A value that does not fit the schema records
a type mismatch. Encoding stops at the first error. -/
def encodeValue : Schema → Value → Writer → Writer
  | .null, .ptr none, w => w
  | .boolean, .bool b, w => w.WriteBool b
  | .int, .int v, w => w.WriteInt v
  | .long, .int v, w => w.WriteLong v
  | .float, .float32 bits, w => w.WriteFloat bits
  | .double, .float64 bits, w => w.WriteDouble bits
  | .string, .string s, w => w.WriteString s
  | .bytes, .slice x, w =>
    match bytesOf (x.getD []) with
    | some b => w.WriteBytes b
    | none => w.fail "TypeMismatchError"
  | .array items, .slice x, w =>
    let elems := x.getD []
    if elems.isEmpty then w.WriteLong 0
    else
      let body := elems.foldl
        (fun u e => if u.Error.isSome then u else encodeValue items e u)
        (w.WriteLong elems.length)
      if body.Error.isSome then body else body.WriteLong 0
  | .map values, .map m, w =>
    let entries := m.getD []
    if entries.isEmpty then w.WriteLong 0
    else
      let body := entries.foldl
        (fun u kv =>
          if u.Error.isSome then u
          else
            match kv.1 with
            | .string k => encodeValue values kv.2 (u.WriteString k)
            | _ => u.fail "TypeMismatchError")
        (w.WriteLong entries.length)
      if body.Error.isSome then body else body.WriteLong 0
  | .union branches, v, w => encodeBranch branches 0 v.deref w
  | _, _, w => w.fail "TypeMismatchError"
where
  /-- The first branch, from index i on, that matches the value. -/
  encodeBranch : List Schema → Int → Value → Writer → Writer
    | [], _, _, w => w.fail "TypeMismatchError"
    | b :: rest, i, v, w =>
      if b.accepts v then encodeValue b v (w.WriteLong i)
      else encodeBranch rest (i + 1) v w

/-! ## Host records and the type binding, modelled from the spec -/

/-- Modelled from the spec: the tag metadata of a host field descriptor (section
4.2): the resolved name (the explicit override if present, else the field name),
whether host introspection supplies the field (an unexported field is not
supplied), whether the field is an embedded one, and the omission flag. -/
structure FieldTag where
  name : String
  exported : Bool
  embedded : Bool
  omitEmpty : Bool

/-- Modelled from the spec: a host value together with its shape. A value of a
Go type behind a pointer, a struct with its fields in host declaration order, a
dynamically typed map with string keys, or the untyped nil. -/
inductive Host where
  | val (typ : GoType) (v : HostVal typ.Kind)
  | struct (fields : List (FieldTag × Host))
  | dynMap (entries : List (String × Host))
  | nil

/-- The Go value behind a pointer to a value of the given kind. -/
def toValue : (k : Kind) → HostVal k → Value
  | .Bool, (b : Bool) => .bool b
  | .Int, (v : Int) => .int v
  | .Int8, (v : Int) => .int v
  | .Int16, (v : Int) => .int v
  | .Int32, (v : Int) => .int v
  | .Int64, (v : Int) => .int v
  | .Uint, (v : Nat) => .uint v
  | .Uint8, (v : Nat) => .uint v
  | .Uint16, (v : Nat) => .uint v
  | .Uint32, (v : Nat) => .uint v
  | .Uint64, (v : Nat) => .uint v
  | .Uintptr, (v : Nat) => .uint v
  | .Float32, (bits : Nat) => .float32 bits
  | .Float64, (bits : Nat) => .float64 bits
  | .Complex64, (c : Nat × Nat) => .complex64 c.1 c.2
  | .Complex128, (c : Nat × Nat) => .complex128 c.1 c.2
  | .String, (s : List UInt8) => .string s
  | .Slice, (x : Option (List Value)) => .slice x
  | .Map, (m : Option (List (Value × Value))) => .map m
  | .Ptr, (p : Option Value) => .ptr p
  | .Interface, (e : Eface Value) => .iface e
  | .Array, (a : List Value) => .array a
  | .Struct, (a : List Value) => .struct a
  | .Chan, (isNil : Bool) => .chan isNil
  | .Func, (isNil : Bool) => .func isNil
  | .UnsafePointer, (isNil : Bool) => .rawptr isNil
  | .Invalid, _ => .ptr none

/-- Modelled from the spec: the fields a struct declares itself and host
introspection supplies (section 6), the exported fields that are not embedded. -/
def directFields (fields : List (FieldTag × Host)) : List (FieldTag × Host) :=
  fields.filter (fun f => !f.1.embedded && f.1.exported)

/-- Modelled from the spec: the flattened candidate field list of a host struct
(section 4.2, step 1). The fields of embedded structs are added depth-first after
the fields of the struct itself, so that on a name collision the first match is
the outer field; an embedded value that is not a struct contributes nothing. -/
def Host.flatten : Host → List (FieldTag × Host)
  | .struct fields => directFields fields ++ flattenEmbedded fields
  | _ => []
where
  /-- The flattened fields of the embedded structs among the given fields. -/
  flattenEmbedded : List (FieldTag × Host) → List (FieldTag × Host)
    | [] => []
    | (tag, h) :: rest =>
      (if tag.embedded then h.flatten else []) ++ flattenEmbedded rest

/-- Modelled from the spec: the host source of a schema field (section 4.2, step
2), the first flattened host field whose resolved name is the name of the schema
field, or for a dynamically typed map the entry under that key. -/
def Host.source (h : Host) (name : String) : Option (FieldTag × Host) :=
  match h with
  | .dynMap entries =>
    (entries.find? (fun e => e.1 == name)).map (fun e => (⟨name, true, false, false⟩, e.2))
  | _ => h.flatten.find? (fun f => f.1.name == name)

/-- Modelled from the spec: the encoder of a default literal for a schema node
(section 8, missing-with-default), the literal written as a value of the schema:
a union through the first branch the literal matches, a sub-record field by field
in schema order from the literal map, falling back on the default of the field. -/
def encodeLiteral : Schema → Literal → Writer → Writer
  | .null, .null, w => w
  | .boolean, .bool b, w => w.WriteBool b
  | .int, .number v, w => w.WriteInt v
  | .long, .number v, w => w.WriteLong v
  | .string, .string s, w => w.WriteString s
  | .bytes, .string s, w => w.WriteBytes s
  | .array items, .array lits, w =>
    if lits.isEmpty then w.WriteLong 0
    else
      let body := lits.foldl
        (fun u l => if u.Error.isSome then u else encodeLiteral items l u)
        (w.WriteLong lits.length)
      if body.Error.isSome then body else body.WriteLong 0
  | .union branches, lit, w => literalBranch branches 0 lit w
  | .record _ fields, .object entries, w => literalFields fields entries w
  | _, _, w => w.fail "TypeMismatchError"
where
  /-- Whether a literal is in the literal domain of a branch. -/
  fits : Schema → Literal → Bool
    | .null, .null => true
    | .boolean, .bool _ => true
    | .int, .number _ => true
    | .long, .number _ => true
    | .string, .string _ => true
    | .bytes, .string _ => true
    | .array _, .array _ => true
    | .record _ _, .object _ => true
    | _, _ => false
  /-- The first branch, from index i on, that the literal matches. -/
  literalBranch : List Schema → Int → Literal → Writer → Writer
    | [], _, _, w => w.fail "TypeMismatchError"
    | b :: rest, i, lit, w =>
      if fits b lit then encodeLiteral b lit (w.WriteLong i)
      else literalBranch rest (i + 1) lit w
  /-- The fields of a sub-record default, in schema order. -/
  literalFields : List (String × Schema × Option Literal) → List (String × Literal) →
      Writer → Writer
    | [], _, w => w
    | (name, type, dflt) :: rest, entries, w =>
      let w1 :=
        match (entries.find? (fun e => e.1 == name)).map (fun e => e.2) with
        | some lit => encodeLiteral type lit w
        | none =>
          match dflt with
          | some lit => encodeLiteral type lit w
          | none => w.fail "MissingFieldError"
      if w1.Error.isSome then w1 else literalFields rest entries w1

/-- Modelled from the spec: the encoder of a host field that is a value of a Go
type (sections 4.2 step 3 and 4.5). When the omission flag is set and the schema
type is a nullable union, the field goes through the omitEmptyEncoder with the
predicate of isEmptyFunc for the host type and the encoder of the non-null
branch; otherwise the flag is a no-op and the value is encoded by the general
rule. By the comment on omitEmptyEncoder, pointer types take the general rule. -/
def encodeLeaf (type : Schema) (omitEmpty : Bool) (typ : GoType) (v : HostVal typ.Kind)
    (w : Writer) : Writer :=
  if omitEmpty && typ.Kind != .Ptr then
    match type.nullable with
    | some (nullIdx, typeIdx, branch) =>
      omitEmptyEncoder.Encode
        ⟨⟨fun ptr u => encodeValue branch (toValue typ.Kind ptr) u⟩, nullIdx, typeIdx,
          isEmptyFunc typ⟩ v w
    | none => encodeValue type (toValue typ.Kind v) w
  else
    encodeValue type (toValue typ.Kind v) w

/-- Modelled from the spec: the encoder of a host value for a schema node
(section 4.3, Record). The fields are written strictly in schema-declared order;
a schema field with a host source is encoded from it, a schema field without a
host source is encoded from its default literal, and without a default it is a
missing-field error. Encoding stops at the first error and keeps the bytes
already written. -/
def encodeHost : Schema → Host → Writer → Writer
  | .record _ fields, .struct hostFields, w =>
    encodeFields fields (Host.struct hostFields).source w
  | .record _ fields, .dynMap entries, w =>
    encodeFields fields (Host.dynMap entries).source w
  | .record _ _, _, w => w.fail "TypeMismatchError"
  | type, .val typ v, w => encodeLeaf type false typ v w
  | type, .nil, w => encodeValue type (.ptr none) w
  | _, _, w => w.fail "TypeMismatchError"
where
  /-- The fields of a record, in schema order, each from its source. -/
  encodeFields : List (String × Schema × Option Literal) →
      (String → Option (FieldTag × Host)) → Writer → Writer
    | [], _, w => w
    | (name, type, dflt) :: rest, source, w =>
      let w1 :=
        match source name with
        | some (tag, .val typ v) => encodeLeaf type tag.omitEmpty typ v w
        | some (_, h) => encodeHost type h w
        | none =>
          match dflt with
          | some lit => encodeLiteral type lit w
          | none => w.fail "MissingFieldError"
      if w1.Error.isSome then w1 else encodeFields rest source w1

/-- Modelled from the spec: the entry point encode(schema, value) of the engine
(section 6), on a fresh sink. -/
def Encode (schema : Schema) (h : Host) : Writer :=
  encodeHost schema h emptyWriter

/-! ## The decoder, modelled from the spec -/

/-- Modelled from the spec: a decoded value. A null decodes to no content; a
union decodes to the value of the branch read. -/
inductive Datum where
  | null
  | boolean (b : Bool)
  | long (v : Int)
  | float (bits : Nat)
  | double (bits : Nat)
  | bytes (b : List UInt8)
  | string (s : List UInt8)
  | array (items : List Datum)
  | map (entries : List (List UInt8 × Datum))
  | record (fields : List (String × Datum))

/-- Modelled from the spec: the inverse of varint (section 4.4). The first
argument is the number of bytes the width allows; a varint not terminated within
them, or cut short by the end of the input, is a truncated-varint error. -/
def decodeVarint : Nat → List UInt8 → Option (Nat × List UInt8)
  | 0, _ => none
  | _ + 1, [] => none
  | fuel + 1, b :: rest =>
    if b < 128 then some (b.toNat, rest)
    else
      match decodeVarint fuel rest with
      | some (n, r) => some (b.toNat - 128 + 128 * n, r)
      | none => none

/-- Modelled from the spec: the inverse of the zigzag transform (section 4.4). -/
def unzigzag (n : Nat) : Int :=
  if n % 2 = 0 then (n / 2 : Nat) else -((n / 2 : Nat) : Int) - 1

/-- Modelled from the spec: read a primitive long, at most ten bytes. -/
def readLong (bs : List UInt8) : Option (Int × List UInt8) :=
  match decodeVarint 10 bs with
  | some (n, rest) => some (unzigzag n, rest)
  | none => none

/-- Modelled from the spec: read a primitive int, at most five bytes. -/
def readInt (bs : List UInt8) : Option (Int × List UInt8) :=
  match decodeVarint 5 bs with
  | some (n, rest) => some (unzigzag n, rest)
  | none => none

/-- Modelled from the spec: the first n bytes of the input and the rest, when
there are that many. -/
def takeBytes (n : Nat) (bs : List UInt8) : Option (List UInt8 × List UInt8) :=
  if n ≤ bs.length then some (bs.take n, bs.drop n) else none

/-- Modelled from the spec: the bit pattern of little-endian bytes (section
4.4). -/
def fromLE : List UInt8 → Nat
  | [] => 0
  | b :: rest => b.toNat + 256 * fromLE rest

/-- Modelled from the spec: read a length-prefixed byte sequence. -/
def readBytes (bs : List UInt8) : Option (List UInt8 × List UInt8) :=
  match readLong bs with
  | some (n, rest) => if n < 0 then none else takeBytes n.toNat rest
  | none => none

/-- Modelled from the spec: read the item count of one block, that many items
with the given item decoder (section 4.3, Array and Map). -/
def decodeItems {α : Type} (dec : List UInt8 → Option (α × List UInt8)) :
    Nat → List UInt8 → Option (List α × List UInt8)
  | 0, bs => some ([], bs)
  | n + 1, bs =>
    match dec bs with
    | some (d, rest) =>
      match decodeItems dec n rest with
      | some (ds, r) => some (d :: ds, r)
      | none => none
    | none => none

/-- Modelled from the spec: read blocks until a zero-count block terminates
(section 4.3, Array and Map). The first argument bounds the number of blocks;
every block takes at least one byte of input. -/
def decodeBlocks {α : Type} (dec : List UInt8 → Option (α × List UInt8)) :
    Nat → List UInt8 → Option (List α × List UInt8)
  | 0, _ => none
  | fuel + 1, bs =>
    match readLong bs with
    | some (count, rest) =>
      if count = 0 then some ([], rest)
      else if count < 0 then none
      else
        match decodeItems dec count.toNat rest with
        | some (ds, r) =>
          match decodeBlocks dec fuel r with
          | some (more, r2) => some (ds ++ more, r2)
          | none => none
        | none => none
    | none => none

/-- Modelled from the spec: the decoder for a schema node (sections 4.3 and 4.4),
from the input bytes to the decoded value and the bytes left over. A boolean byte
other than 0x00 and 0x01 is an error; a union reads the branch index, fails when
it is out of range, and decodes through that branch; a record reads its fields
in schema order. -/
def decode : Schema → List UInt8 → Option (Datum × List UInt8)
  | .null, bs => some (.null, bs)
  | .boolean, [] => none
  | .boolean, b :: rest =>
    if b = 0 then some (.boolean false, rest)
    else if b = 1 then some (.boolean true, rest)
    else none
  | .int, bs => (readInt bs).map (fun r => (.long r.1, r.2))
  | .long, bs => (readLong bs).map (fun r => (.long r.1, r.2))
  | .float, bs => (takeBytes 4 bs).map (fun r => (.float (fromLE r.1), r.2))
  | .double, bs => (takeBytes 8 bs).map (fun r => (.double (fromLE r.1), r.2))
  | .bytes, bs => (readBytes bs).map (fun r => (.bytes r.1, r.2))
  | .string, bs => (readBytes bs).map (fun r => (.string r.1, r.2))
  | .array items, bs =>
    (decodeBlocks (fun u => decode items u) (bs.length + 1) bs).map
      (fun r => (.array r.1, r.2))
  | .map values, bs =>
    (decodeBlocks
      (fun u =>
        match readBytes u with
        | some (k, rest) => (decode values rest).map (fun r => ((k, r.1), r.2))
        | none => none)
      (bs.length + 1) bs).map (fun r => (.map r.1, r.2))
  | .union branches, bs =>
    match readLong bs with
    | some (idx, rest) => decodeBranch branches idx rest
    | none => none
  | .record _ fields, bs => (decodeFields fields bs).map (fun r => (.record r.1, r.2))
where
  /-- The branch at the given index; an index out of range is an error. -/
  decodeBranch : List Schema → Int → List UInt8 → Option (Datum × List UInt8)
    | [], _, _ => none
    | b :: rest, idx, bs => if idx = 0 then decode b bs else decodeBranch rest (idx - 1) bs
  /-- The fields of a record, in schema order. -/
  decodeFields : List (String × Schema × Option Literal) → List UInt8 →
      Option (List (String × Datum) × List UInt8)
    | [], bs => some ([], bs)
    | (name, type, _) :: rest, bs =>
      match decode type bs with
      | some (d, r) =>
        match decodeFields rest r with
        | some (ds, r2) => some ((name, d) :: ds, r2)
        | none => none
      | none => none

/-- Modelled from the spec: the entry point decode(schema, bytes) of the engine
(section 6): the decoded value, when the input holds one. -/
def Decode (schema : Schema) (bs : List UInt8) : Option Datum :=
  (decode schema bs).map (fun r => r.1)

/-- Whether a schema node is a union with a null branch. -/
def Schema.hasNullBranch : Schema → Bool
  | .union branches =>
    branches.any (fun b =>
      match b with
      | .null => true
      | _ => false)
  | _ => false

/-! ## Types, tags and values used in the examples of the record codec -/

def int32Type : GoType := ⟨"int32", .Int32⟩
def stringType : GoType := ⟨"string", .String⟩
def bytesType : GoType := ⟨"[]byte", .Slice⟩
def stringSliceType : GoType := ⟨"[]string", .Slice⟩
def ptrInt64Type : GoType := ⟨"*int64", .Ptr⟩
def ptrStringType : GoType := ⟨"*string", .Ptr⟩

/-- The tag of an exported field declared with the given name. -/
def plainTag (name : String) : FieldTag := ⟨name, true, false, false⟩

/-- The tag of an exported field declared with the given name and omitempty. -/
def omitTag (name : String) : FieldTag := ⟨name, true, false, true⟩

/-- The tag of an embedded field of the given type name. -/
def embeddedTag (name : String) : FieldTag := ⟨name, true, true, false⟩

/-- The tag of an unexported field declared with the given name. -/
def unexportedTag (name : String) : FieldTag := ⟨name, false, false, false⟩

/-- The bytes of "foo". -/
def foo : List UInt8 := [0x66, 0x6f, 0x6f]

/-- The record schema with the fields a, a long, and b, a string. -/
def longStringSchema : Schema :=
  .record "test" [("a", .long, none), ("b", .string, none)]

/-- The record schema with the fields a, a nullable long with default null, and
b, a string. -/
def nullableLongSchema : Schema :=
  .record "test" [("a", .union [.null, .long], some .null), ("b", .string, none)]

/-! ## Definitions for the behaviour of Encode on one writer -/

/-- Modelled from the spec: the encoder compiled for a host type that cannot be
resolved against the schema. Every call reports the type mismatch (section 7)
and writes nothing. The codec compiler is not among the source files. -/
def errorEncoder (α : Type) (msg : String) : ValEncoder α :=
  ⟨fun _ w => w.fail msg⟩

def uintType : GoType := ⟨"uint", .Uint⟩
def mapStringInt64Type : GoType := ⟨"map[string]int64", .Map⟩

/-- The named type MyCustomInt of types_test.go, whose underlying type is int64. -/
def myCustomIntType : GoType := ⟨"MyCustomInt", .Int64⟩

/-- The named type MyCustomString of types_test.go, whose underlying type is
string. -/
def myCustomStringType : GoType := ⟨"MyCustomString", .String⟩

/-- The bytes of "test". -/
def testBytes : List UInt8 := [0x74, 0x65, 0x73, 0x74]

/-- The record schema with three nullable fields, a long, a string and a
boolean, each with default null. -/
def allNullableSchema : Schema :=
  .record "test"
    [("a", .union [.null, .long], some .null),
     ("b", .union [.null, .string], some .null),
     ("c", .union [.null, .boolean], some .null)]

/-- The writer w with the bytes b in front of what it holds. -/
def Writer.shift (b : List UInt8) (w : Writer) : Writer :=
  ⟨b ++ w.buf, w.Error⟩

/-- The kinds named by a case label of the switch in isEmptyFunc; every other
kind takes the default case. -/
def dedicatedKinds : List Kind :=
  [.Bool, .Int, .Int8, .Int16, .Int32, .Int64, .Uint, .Uint8, .Uint16, .Uint32, .Uint64,
   .Float32, .Float64, .String, .Slice, .Map, .Ptr, .Interface]

/-! ## The omit-empty encoder -/

/-- C1: when the emptiness predicate holds for the host value, Encode is exactly
WriteInt of nullIdx: the writer gains the int encoding of nullIdx and nothing
else, its error slot is untouched, the byte is 0x00 when the null branch is first
(nullIdx 0) and 0x02 when it is second (nullIdx 1), and the outcome is the same
whatever the wrapped encoder is, since it is not called. -/
theorem omitEmpty_encode_empty {α : Type} (e : omitEmptyEncoder α) (v : α) (w : Writer)
    (h : e.isEmpty v = true) :
    e.Encode v w = w.WriteInt e.nullIdx ∧
    (e.Encode v w).buf = w.buf ++ varint (zigzag 32 e.nullIdx) ∧
    (e.Encode v w).Error = w.Error ∧
    (e.nullIdx = 0 → (e.Encode v w).buf = w.buf ++ [0x00]) ∧
    (e.nullIdx = 1 → (e.Encode v w).buf = w.buf ++ [0x02]) ∧
    (∀ enc : ValEncoder α,
      omitEmptyEncoder.Encode ⟨enc, e.nullIdx, e.typeIdx, e.isEmpty⟩ v w = e.Encode v w) := by
  have hE : e.Encode v w = w.WriteInt e.nullIdx := by
    simp [omitEmptyEncoder.Encode, h]
  refine ⟨hE, ?_, ?_, ?_, ?_, ?_⟩
  · rw [hE]; rfl
  · rw [hE]; rfl
  · intro h0
    rw [hE, h0]; rfl
  · intro h1
    rw [hE, h1]; rfl
  · intro enc
    rw [hE]
    simp [omitEmptyEncoder.Encode, h]

/-- An empty int64 behind a union whose null branch is second is written as the
single byte 0x02. -/
theorem omitEmpty_encode_empty_witness :
    isEmptyFunc int64Type (0 : Int) = true ∧
    (omitEmptyEncoder.Encode ⟨longEncoder, 1, 0, isEmptyFunc int64Type⟩ (0 : Int)
      emptyWriter).buf = [0x02] :=
  ⟨by decide,
   (omitEmpty_encode_empty ⟨longEncoder, 1, 0, isEmptyFunc int64Type⟩ (0 : Int) emptyWriter
      (by decide)).2.2.2.2.1 rfl⟩

/-- C2: when the emptiness predicate fails for the host value, Encode is WriteInt
of typeIdx followed by the wrapped encoder on the same value: if the wrapped
encoder appends the bytes out to whatever writer it is given, Encode appends the
int encoding of typeIdx and then out. For the union of null and long, the int64
27 is written as 0x02 0x36. -/
theorem omitEmpty_encode_nonEmpty {α : Type} (e : omitEmptyEncoder α) (v : α) (w : Writer)
    (h : e.isEmpty v = false) :
    e.Encode v w = e.encoder.Encode v (w.WriteInt e.typeIdx) ∧
    (∀ out : List UInt8, (∀ u : Writer, (e.encoder.Encode v u).buf = u.buf ++ out) →
      (e.Encode v w).buf = w.buf ++ (varint (zigzag 32 e.typeIdx) ++ out)) ∧
    (omitEmptyEncoder.Encode ⟨longEncoder, 0, 1, isEmptyFunc int64Type⟩ (27 : Int) w).buf
      = w.buf ++ [0x02, 0x36] := by
  have hE : e.Encode v w = e.encoder.Encode v (w.WriteInt e.typeIdx) := by
    simp [omitEmptyEncoder.Encode, h]
  refine ⟨hE, ?_, ?_⟩
  · intro out hout
    rw [hE, hout]
    simp [Writer.WriteInt]
  · have h27 : isEmptyFunc int64Type (27 : Int) = false := by decide
    have hz : varint (zigzag 32 1) = [0x02] := by decide
    have hl : varint (zigzag 64 27) = [0x36] := by decide
    simp [omitEmptyEncoder.Encode, h27, longEncoder, Writer.WriteInt, Writer.WriteLong, hz, hl]

/-- The int64 27 behind the union of null and long is written to the empty
writer as 0x02 0x36. -/
theorem omitEmpty_encode_nonEmpty_witness :
    isEmptyFunc int64Type (27 : Int) = false ∧
    (omitEmptyEncoder.Encode ⟨longEncoder, 0, 1, isEmptyFunc int64Type⟩ (27 : Int)
      emptyWriter).buf = [0x02, 0x36] :=
  ⟨by decide,
   (omitEmpty_encode_nonEmpty ⟨longEncoder, 0, 1, isEmptyFunc int64Type⟩ (27 : Int) emptyWriter
      (by decide)).2.2⟩

/-- C3: for the union of null and long (nullIdx 0, typeIdx 1) and an int64 host
value, encoding 0 with omission appends exactly the byte 0x00 and nothing after
it, whatever the wrapped encoder and the writer are. -/
theorem omitEmpty_nullLong_zero (name : String) (enc : ValEncoder Int) (w : Writer) :
    omitEmptyEncoder.Encode ⟨enc, 0, 1, isEmptyFunc ⟨name, .Int64⟩⟩ (0 : Int) w
      = ⟨w.buf ++ [0x00], w.Error⟩ := by
  have h0 : isEmptyFunc ⟨name, .Int64⟩ (0 : Int) = true := rfl
  have hz : varint (zigzag 32 0) = [0x00] := by decide
  simp [omitEmptyEncoder.Encode, h0, Writer.WriteInt, hz]

/-! ## The emptiness predicates -/

/-- C4: for each of the ten integer kinds the predicate of isEmptyFunc is true
exactly when the value is 0; every negative value is not empty, and neither are
the minimum and the maximum of each signed width nor the maximum of each
unsigned width. -/
theorem isEmptyFunc_integer_iff_zero (name : String) :
    ((∀ v : Int, isEmptyFunc ⟨name, .Int⟩ v = true ↔ v = 0) ∧
     (∀ v : Int, isEmptyFunc ⟨name, .Int8⟩ v = true ↔ v = 0) ∧
     (∀ v : Int, isEmptyFunc ⟨name, .Int16⟩ v = true ↔ v = 0) ∧
     (∀ v : Int, isEmptyFunc ⟨name, .Int32⟩ v = true ↔ v = 0) ∧
     (∀ v : Int, isEmptyFunc ⟨name, .Int64⟩ v = true ↔ v = 0)) ∧
    ((∀ v : Nat, isEmptyFunc ⟨name, .Uint⟩ v = true ↔ v = 0) ∧
     (∀ v : Nat, isEmptyFunc ⟨name, .Uint8⟩ v = true ↔ v = 0) ∧
     (∀ v : Nat, isEmptyFunc ⟨name, .Uint16⟩ v = true ↔ v = 0) ∧
     (∀ v : Nat, isEmptyFunc ⟨name, .Uint32⟩ v = true ↔ v = 0) ∧
     (∀ v : Nat, isEmptyFunc ⟨name, .Uint64⟩ v = true ↔ v = 0)) ∧
    ((∀ n : Nat, isEmptyFunc ⟨name, .Int⟩ (Int.negSucc n) = false) ∧
     (∀ n : Nat, isEmptyFunc ⟨name, .Int8⟩ (Int.negSucc n) = false) ∧
     (∀ n : Nat, isEmptyFunc ⟨name, .Int16⟩ (Int.negSucc n) = false) ∧
     (∀ n : Nat, isEmptyFunc ⟨name, .Int32⟩ (Int.negSucc n) = false) ∧
     (∀ n : Nat, isEmptyFunc ⟨name, .Int64⟩ (Int.negSucc n) = false)) ∧
    ((isEmptyFunc ⟨name, .Int8⟩ (-128 : Int) = false ∧
      isEmptyFunc ⟨name, .Int8⟩ (127 : Int) = false) ∧
     (isEmptyFunc ⟨name, .Int16⟩ (-32768 : Int) = false ∧
      isEmptyFunc ⟨name, .Int16⟩ (32767 : Int) = false) ∧
     (isEmptyFunc ⟨name, .Int32⟩ (-2147483648 : Int) = false ∧
      isEmptyFunc ⟨name, .Int32⟩ (2147483647 : Int) = false) ∧
     (isEmptyFunc ⟨name, .Int64⟩ (-9223372036854775808 : Int) = false ∧
      isEmptyFunc ⟨name, .Int64⟩ (9223372036854775807 : Int) = false) ∧
     (isEmptyFunc ⟨name, .Int⟩ (-2147483648 : Int) = false ∧
      isEmptyFunc ⟨name, .Int⟩ (2147483647 : Int) = false ∧
      isEmptyFunc ⟨name, .Int⟩ (-9223372036854775808 : Int) = false ∧
      isEmptyFunc ⟨name, .Int⟩ (9223372036854775807 : Int) = false)) ∧
    (isEmptyFunc ⟨name, .Uint8⟩ (255 : Nat) = false ∧
     isEmptyFunc ⟨name, .Uint16⟩ (65535 : Nat) = false ∧
     isEmptyFunc ⟨name, .Uint32⟩ (4294967295 : Nat) = false ∧
     isEmptyFunc ⟨name, .Uint64⟩ (18446744073709551615 : Nat) = false ∧
     isEmptyFunc ⟨name, .Uint⟩ (4294967295 : Nat) = false ∧
     isEmptyFunc ⟨name, .Uint⟩ (18446744073709551615 : Nat) = false) := by
  refine ⟨⟨?_, ?_, ?_, ?_, ?_⟩, ⟨?_, ?_, ?_, ?_, ?_⟩, ⟨?_, ?_, ?_, ?_, ?_⟩, ?_, ?_⟩
  any_goals (intro v; simp [isEmptyFunc])
  all_goals simp [isEmptyFunc]

/-- C5: for the bool kind the predicate of isEmptyFunc is true exactly when the
value is false; with omission on a field typed as the union of null and boolean,
false is written as the null index alone (0x00) and true as the boolean index
followed by 0x01 (0x02 0x01). -/
theorem isEmptyFunc_bool_iff_false (name : String) (w : Writer) :
    (∀ b : Bool, isEmptyFunc ⟨name, .Bool⟩ b = true ↔ b = false) ∧
    omitEmptyEncoder.Encode ⟨boolEncoder, 0, 1, isEmptyFunc ⟨name, .Bool⟩⟩ false w
      = ⟨w.buf ++ [0x00], w.Error⟩ ∧
    omitEmptyEncoder.Encode ⟨boolEncoder, 0, 1, isEmptyFunc ⟨name, .Bool⟩⟩ true w
      = ⟨w.buf ++ [0x02, 0x01], w.Error⟩ := by
  have hz : varint (zigzag 32 0) = [0x00] := by decide
  have ho : varint (zigzag 32 1) = [0x02] := by decide
  have hf : isEmptyFunc ⟨name, .Bool⟩ false = true := rfl
  have ht : isEmptyFunc ⟨name, .Bool⟩ true = false := rfl
  refine ⟨?_, ?_, ?_⟩
  · intro b
    cases b
    · simp [hf]
    · simp [ht]
  · simp [omitEmptyEncoder.Encode, hf, Writer.WriteInt, hz]
  · simp [omitEmptyEncoder.Encode, ht, Writer.WriteInt, ho, boolEncoder, Writer.WriteBool]

/-! ### Floating point: comparison with zero on bit patterns -/

theorem floatZero_float64 : floatZero 11 52 = .fin false 0 (-1074) := by decide

theorem floatZero_float32 : floatZero 8 23 = .fin false 0 (-149) := by decide

/-- A datum compares equal to positive zero exactly when it is finite with
significand 0. -/
theorem floatEq_zero_iff (x : FloatVal) (e : Int) :
    floatEq x (.fin false 0 e) = true ↔ ∃ n e0, x = .fin n 0 e0 := by
  cases x with
  | nan => simp [floatEq]
  | inf n => simp [floatEq]
  | fin n s e1 =>
    constructor
    · intro h
      simp [floatEq] at h
      rcases h with h | h
      · exact ⟨n, e1, by rw [h]⟩
      · exact ⟨n, e1, by rw [h.1.2]⟩
    · rintro ⟨n0, e0, h⟩
      cases h
      simp [floatEq]

theorem decodeFloat64_zero_iff (b : Nat) :
    (∃ n e0, decodeFloat 11 52 b = .fin n 0 e0) ↔ b % 2 ^ 63 = 0 := by
  unfold decodeFloat
  simp only []
  split_ifs with h1 h2 h3
  · simp; omega
  · simp; omega
  · simp; omega
  · simp; omega

theorem decodeFloat32_zero_iff (b : Nat) :
    (∃ n e0, decodeFloat 8 23 b = .fin n 0 e0) ↔ b % 2 ^ 31 = 0 := by
  unfold decodeFloat
  simp only []
  split_ifs with h1 h2 h3
  · simp; omega
  · simp; omega
  · simp; omega
  · simp; omega

/-- The float64 predicate holds exactly for the bit patterns whose low 63 bits
are all zero. -/
theorem isEmptyFunc_float64_iff (name : String) (b : Nat) :
    isEmptyFunc ⟨name, .Float64⟩ b = true ↔ b % 2 ^ 63 = 0 := by
  show floatEq (decodeFloat 11 52 b) (floatZero 11 52) = true ↔ _
  rw [floatZero_float64, floatEq_zero_iff, decodeFloat64_zero_iff]

/-- The float32 predicate holds exactly for the bit patterns whose low 31 bits
are all zero. -/
theorem isEmptyFunc_float32_iff (name : String) (b : Nat) :
    isEmptyFunc ⟨name, .Float32⟩ b = true ↔ b % 2 ^ 31 = 0 := by
  show floatEq (decodeFloat 8 23 b) (floatZero 8 23) = true ↔ _
  rw [floatZero_float32, floatEq_zero_iff, decodeFloat32_zero_iff]

/-- A datum that is a NaN, an infinity or finite with a non-zero significand does
not compare equal to positive zero. -/
theorem floatEq_zero_false (x : FloatVal) (e : Int)
    (h : ∀ n e0, x ≠ .fin n 0 e0) : floatEq x (.fin false 0 e) = false := by
  cases hx : floatEq x (.fin false 0 e) with
  | false => rfl
  | true =>
    obtain ⟨n, e0, hn⟩ := (floatEq_zero_iff x e).1 hx
    exact absurd hn (h n e0)

/-- C6: negative zero is empty for float32 and float64, so with omission on a
nullable double field encoding -0.0 gives the same writer as encoding +0.0: the
int encoding of the null index alone (0x00 when the null branch is first),
whatever the wrapped encoder is. -/
theorem isEmptyFunc_negZero (name : String) (enc : ValEncoder Nat) (nullIdx typeIdx : Int)
    (w : Writer) :
    isEmptyFunc ⟨name, .Float32⟩ (0x80000000 : Nat) = true ∧
    isEmptyFunc ⟨name, .Float64⟩ (0x8000000000000000 : Nat) = true ∧
    omitEmptyEncoder.Encode ⟨enc, nullIdx, typeIdx, isEmptyFunc ⟨name, .Float64⟩⟩
        (0x8000000000000000 : Nat) w
      = omitEmptyEncoder.Encode ⟨enc, nullIdx, typeIdx, isEmptyFunc ⟨name, .Float64⟩⟩
        (0 : Nat) w ∧
    omitEmptyEncoder.Encode ⟨enc, nullIdx, typeIdx, isEmptyFunc ⟨name, .Float64⟩⟩
        (0x8000000000000000 : Nat) w
      = w.WriteInt nullIdx ∧
    omitEmptyEncoder.Encode ⟨enc, 0, 1, isEmptyFunc ⟨name, .Float64⟩⟩
        (0x8000000000000000 : Nat) w
      = ⟨w.buf ++ [0x00], w.Error⟩ := by
  have h32 : isEmptyFunc ⟨name, .Float32⟩ (0x80000000 : Nat) = true :=
    (isEmptyFunc_float32_iff name _).2 (by norm_num)
  have hneg : isEmptyFunc ⟨name, .Float64⟩ (0x8000000000000000 : Nat) = true :=
    (isEmptyFunc_float64_iff name _).2 (by norm_num)
  have hpos : isEmptyFunc ⟨name, .Float64⟩ (0 : Nat) = true :=
    (isEmptyFunc_float64_iff name _).2 (by norm_num)
  have hz : varint (zigzag 32 0) = [0x00] := by decide
  refine ⟨h32, hneg, ?_, ?_, ?_⟩
  · simp [omitEmptyEncoder.Encode, hneg, hpos]
  · simp [omitEmptyEncoder.Encode, hneg]
  · simp [omitEmptyEncoder.Encode, hneg, Writer.WriteInt, hz]

/-- C7: for float64 and float32 every bit pattern other than the two zeros is
not empty: every NaN (any payload, either sign), both infinities and every finite
number with a non-zero significand, down to the smallest subnormal (bit pattern
1); such a value is encoded through the non-null branch, the type index followed
by the wrapped encoder. -/
theorem isEmptyFunc_float_nonzero (name : String) :
    ((∀ b : Nat, b % 2 ^ 63 ≠ 0 → isEmptyFunc ⟨name, .Float64⟩ b = false) ∧
     (∀ b : Nat, decodeFloat 11 52 b = .nan → isEmptyFunc ⟨name, .Float64⟩ b = false) ∧
     (∀ (b : Nat) (neg : Bool), decodeFloat 11 52 b = .inf neg →
        isEmptyFunc ⟨name, .Float64⟩ b = false) ∧
     (∀ (b : Nat) (neg : Bool) (sig : Nat) (exp : Int),
        decodeFloat 11 52 b = .fin neg sig exp → sig ≠ 0 →
        isEmptyFunc ⟨name, .Float64⟩ b = false) ∧
     (∀ s p : Nat, s < 2 → 0 < p → p < 2 ^ 52 →
        decodeFloat 11 52 (s * 2 ^ 63 + 2047 * 2 ^ 52 + p) = .nan) ∧
     decodeFloat 11 52 0x7ff0000000000000 = .inf false ∧
     decodeFloat 11 52 0xfff0000000000000 = .inf true ∧
     isEmptyFunc ⟨name, .Float64⟩ (0x7ff8000000000001 : Nat) = false ∧
     isEmptyFunc ⟨name, .Float64⟩ (0x7ff0000000000000 : Nat) = false ∧
     isEmptyFunc ⟨name, .Float64⟩ (0xfff0000000000000 : Nat) = false ∧
     isEmptyFunc ⟨name, .Float64⟩ (1 : Nat) = false) ∧
    ((∀ b : Nat, b % 2 ^ 31 ≠ 0 → isEmptyFunc ⟨name, .Float32⟩ b = false) ∧
     (∀ b : Nat, decodeFloat 8 23 b = .nan → isEmptyFunc ⟨name, .Float32⟩ b = false) ∧
     (∀ (b : Nat) (neg : Bool), decodeFloat 8 23 b = .inf neg →
        isEmptyFunc ⟨name, .Float32⟩ b = false) ∧
     (∀ (b : Nat) (neg : Bool) (sig : Nat) (exp : Int),
        decodeFloat 8 23 b = .fin neg sig exp → sig ≠ 0 →
        isEmptyFunc ⟨name, .Float32⟩ b = false) ∧
     (∀ s p : Nat, s < 2 → 0 < p → p < 2 ^ 23 →
        decodeFloat 8 23 (s * 2 ^ 31 + 255 * 2 ^ 23 + p) = .nan) ∧
     decodeFloat 8 23 0x7f800000 = .inf false ∧
     decodeFloat 8 23 0xff800000 = .inf true ∧
     isEmptyFunc ⟨name, .Float32⟩ (0x7fc00000 : Nat) = false ∧
     isEmptyFunc ⟨name, .Float32⟩ (0x7f800000 : Nat) = false ∧
     isEmptyFunc ⟨name, .Float32⟩ (0xff800000 : Nat) = false ∧
     isEmptyFunc ⟨name, .Float32⟩ (1 : Nat) = false) ∧
    (∀ (enc : ValEncoder Nat) (nullIdx typeIdx : Int) (w : Writer) (b : Nat),
      b % 2 ^ 63 ≠ 0 →
      omitEmptyEncoder.Encode ⟨enc, nullIdx, typeIdx, isEmptyFunc ⟨name, .Float64⟩⟩ b w
        = enc.Encode b (w.WriteInt typeIdx)) ∧
    (∀ (enc : ValEncoder Nat) (nullIdx typeIdx : Int) (w : Writer) (b : Nat),
      b % 2 ^ 31 ≠ 0 →
      omitEmptyEncoder.Encode ⟨enc, nullIdx, typeIdx, isEmptyFunc ⟨name, .Float32⟩⟩ b w
        = enc.Encode b (w.WriteInt typeIdx)) := by
  have g64 : ∀ b : Nat, b % 2 ^ 63 ≠ 0 → isEmptyFunc ⟨name, .Float64⟩ b = false := by
    intro b hb
    cases h : isEmptyFunc ⟨name, .Float64⟩ b with
    | false => rfl
    | true => exact absurd ((isEmptyFunc_float64_iff name b).1 h) hb
  have g32 : ∀ b : Nat, b % 2 ^ 31 ≠ 0 → isEmptyFunc ⟨name, .Float32⟩ b = false := by
    intro b hb
    cases h : isEmptyFunc ⟨name, .Float32⟩ b with
    | false => rfl
    | true => exact absurd ((isEmptyFunc_float32_iff name b).1 h) hb
  have c64 : ∀ b : Nat, (∀ n e0, decodeFloat 11 52 b ≠ .fin n 0 e0) →
      isEmptyFunc ⟨name, .Float64⟩ b = false := by
    intro b hb
    show floatEq (decodeFloat 11 52 b) (floatZero 11 52) = false
    rw [floatZero_float64]
    exact floatEq_zero_false _ _ hb
  have c32 : ∀ b : Nat, (∀ n e0, decodeFloat 8 23 b ≠ .fin n 0 e0) →
      isEmptyFunc ⟨name, .Float32⟩ b = false := by
    intro b hb
    show floatEq (decodeFloat 8 23 b) (floatZero 8 23) = false
    rw [floatZero_float32]
    exact floatEq_zero_false _ _ hb
  refine ⟨⟨g64, ?_, ?_, ?_, ?_, by decide, by decide, ?_, ?_, ?_, ?_⟩,
    ⟨g32, ?_, ?_, ?_, ?_, by decide, by decide, ?_, ?_, ?_, ?_⟩, ?_, ?_⟩
  · intro b hb
    exact c64 b (by rw [hb]; intro n e0 h; cases h)
  · intro b neg hb
    exact c64 b (by rw [hb]; intro n e0 h; cases h)
  · intro b neg sig exp hb hsig
    exact c64 b (by rw [hb]; intro n e0 h; cases h; exact hsig rfl)
  · intro s p hs hp0 hp
    unfold decodeFloat
    simp only []
    have e1 : (s * 2 ^ 63 + 2047 * 2 ^ 52 + p) / 2 ^ 52 % 2 ^ 11 = 2 ^ 11 - 1 := by omega
    have e2 : (s * 2 ^ 63 + 2047 * 2 ^ 52 + p) % 2 ^ 52 ≠ 0 := by omega
    rw [if_pos e1, if_neg e2]
  · exact g64 _ (by norm_num)
  · exact g64 _ (by norm_num)
  · exact g64 _ (by norm_num)
  · exact g64 _ (by norm_num)
  · intro b hb
    exact c32 b (by rw [hb]; intro n e0 h; cases h)
  · intro b neg hb
    exact c32 b (by rw [hb]; intro n e0 h; cases h)
  · intro b neg sig exp hb hsig
    exact c32 b (by rw [hb]; intro n e0 h; cases h; exact hsig rfl)
  · intro s p hs hp0 hp
    unfold decodeFloat
    simp only []
    have e1 : (s * 2 ^ 31 + 255 * 2 ^ 23 + p) / 2 ^ 23 % 2 ^ 8 = 2 ^ 8 - 1 := by omega
    have e2 : (s * 2 ^ 31 + 255 * 2 ^ 23 + p) % 2 ^ 23 ≠ 0 := by omega
    rw [if_pos e1, if_neg e2]
  · exact g32 _ (by norm_num)
  · exact g32 _ (by norm_num)
  · exact g32 _ (by norm_num)
  · exact g32 _ (by norm_num)
  · intro enc nullIdx typeIdx w b hb
    simp [omitEmptyEncoder.Encode, g64 b hb]
  · intro enc nullIdx typeIdx w b hb
    simp [omitEmptyEncoder.Encode, g32 b hb]

/-- The smallest subnormal float64 (bit pattern 1) is not empty. -/
theorem isEmptyFunc_float_nonzero_witness :
    (1 : Nat) % 2 ^ 63 ≠ 0 ∧ isEmptyFunc float64Type (1 : Nat) = false :=
  ⟨by norm_num, (isEmptyFunc_float_nonzero "float64").1.1 1 (by norm_num)⟩

/-- C8, as stated, fails at the float64 negative zero: its bit pattern
0x8000000000000000 is not the all-zero pattern, and the predicate holds. -/
theorem numeric_zero_bits_counterexample :
    ¬ (isEmptyFunc float64Type (0x8000000000000000 : Nat) = true ↔
        (0x8000000000000000 : Nat) = 0) := by
  intro h
  have hneg : isEmptyFunc float64Type (0x8000000000000000 : Nat) = true :=
    (isEmptyFunc_float64_iff "float64" _).2 (by norm_num)
  exact absurd (h.1 hneg) (by norm_num)

/-- C8, amended: for each of the ten integer kinds the predicate holds exactly
when the bit pattern of the value is all zero (two-complement for the signed
kinds, over the width of the kind, 32 or 64 bits for int and uint); for float32
and float64 it holds exactly when every bit other than the sign bit is zero,
that is for the bit patterns of +0 and -0 alone. -/
theorem numeric_zero_bits_amended (name : String) :
    ((∀ v : Int, -2 ^ 7 ≤ v → v < 2 ^ 7 →
        (isEmptyFunc ⟨name, .Int8⟩ v = true ↔ twosComplement 8 v = 0)) ∧
     (∀ v : Int, -2 ^ 15 ≤ v → v < 2 ^ 15 →
        (isEmptyFunc ⟨name, .Int16⟩ v = true ↔ twosComplement 16 v = 0)) ∧
     (∀ v : Int, -2 ^ 31 ≤ v → v < 2 ^ 31 →
        (isEmptyFunc ⟨name, .Int32⟩ v = true ↔ twosComplement 32 v = 0)) ∧
     (∀ v : Int, -2 ^ 63 ≤ v → v < 2 ^ 63 →
        (isEmptyFunc ⟨name, .Int64⟩ v = true ↔ twosComplement 64 v = 0)) ∧
     (∀ v : Int, -2 ^ 31 ≤ v → v < 2 ^ 31 →
        (isEmptyFunc ⟨name, .Int⟩ v = true ↔ twosComplement 32 v = 0)) ∧
     (∀ v : Int, -2 ^ 63 ≤ v → v < 2 ^ 63 →
        (isEmptyFunc ⟨name, .Int⟩ v = true ↔ twosComplement 64 v = 0))) ∧
    ((∀ v : Nat, v < 2 ^ 8 → (isEmptyFunc ⟨name, .Uint8⟩ v = true ↔ v % 2 ^ 8 = 0)) ∧
     (∀ v : Nat, v < 2 ^ 16 → (isEmptyFunc ⟨name, .Uint16⟩ v = true ↔ v % 2 ^ 16 = 0)) ∧
     (∀ v : Nat, v < 2 ^ 32 → (isEmptyFunc ⟨name, .Uint32⟩ v = true ↔ v % 2 ^ 32 = 0)) ∧
     (∀ v : Nat, v < 2 ^ 64 → (isEmptyFunc ⟨name, .Uint64⟩ v = true ↔ v % 2 ^ 64 = 0)) ∧
     (∀ v : Nat, v < 2 ^ 32 → (isEmptyFunc ⟨name, .Uint⟩ v = true ↔ v % 2 ^ 32 = 0)) ∧
     (∀ v : Nat, v < 2 ^ 64 → (isEmptyFunc ⟨name, .Uint⟩ v = true ↔ v % 2 ^ 64 = 0))) ∧
    ((∀ b : Nat, b < 2 ^ 32 →
        (isEmptyFunc ⟨name, .Float32⟩ b = true ↔ b = 0 ∨ b = 0x80000000)) ∧
     (∀ b : Nat, b < 2 ^ 64 →
        (isEmptyFunc ⟨name, .Float64⟩ b = true ↔ b = 0 ∨ b = 0x8000000000000000)) ∧
     (∀ b : Nat, isEmptyFunc ⟨name, .Float32⟩ b = true ↔ b % 2 ^ 31 = 0) ∧
     (∀ b : Nat, isEmptyFunc ⟨name, .Float64⟩ b = true ↔ b % 2 ^ 63 = 0)) := by
  refine ⟨⟨?_, ?_, ?_, ?_, ?_, ?_⟩, ⟨?_, ?_, ?_, ?_, ?_, ?_⟩, ?_, ?_, ?_, ?_⟩
  · intro v h1 h2
    have : (isEmptyFunc ⟨name, .Int8⟩ v = true) ↔ v = 0 := by simp [isEmptyFunc]
    rw [this]; unfold twosComplement; omega
  · intro v h1 h2
    have : (isEmptyFunc ⟨name, .Int16⟩ v = true) ↔ v = 0 := by simp [isEmptyFunc]
    rw [this]; unfold twosComplement; omega
  · intro v h1 h2
    have : (isEmptyFunc ⟨name, .Int32⟩ v = true) ↔ v = 0 := by simp [isEmptyFunc]
    rw [this]; unfold twosComplement; omega
  · intro v h1 h2
    have : (isEmptyFunc ⟨name, .Int64⟩ v = true) ↔ v = 0 := by simp [isEmptyFunc]
    rw [this]; unfold twosComplement; omega
  · intro v h1 h2
    have : (isEmptyFunc ⟨name, .Int⟩ v = true) ↔ v = 0 := by simp [isEmptyFunc]
    rw [this]; unfold twosComplement; omega
  · intro v h1 h2
    have : (isEmptyFunc ⟨name, .Int⟩ v = true) ↔ v = 0 := by simp [isEmptyFunc]
    rw [this]; unfold twosComplement; omega
  · intro v h1
    have : (isEmptyFunc ⟨name, .Uint8⟩ v = true) ↔ v = 0 := by simp [isEmptyFunc]
    rw [this]; omega
  · intro v h1
    have : (isEmptyFunc ⟨name, .Uint16⟩ v = true) ↔ v = 0 := by simp [isEmptyFunc]
    rw [this]; omega
  · intro v h1
    have : (isEmptyFunc ⟨name, .Uint32⟩ v = true) ↔ v = 0 := by simp [isEmptyFunc]
    rw [this]; omega
  · intro v h1
    have : (isEmptyFunc ⟨name, .Uint64⟩ v = true) ↔ v = 0 := by simp [isEmptyFunc]
    rw [this]; omega
  · intro v h1
    have : (isEmptyFunc ⟨name, .Uint⟩ v = true) ↔ v = 0 := by simp [isEmptyFunc]
    rw [this]; omega
  · intro v h1
    have : (isEmptyFunc ⟨name, .Uint⟩ v = true) ↔ v = 0 := by simp [isEmptyFunc]
    rw [this]; omega
  · intro b hb
    rw [isEmptyFunc_float32_iff]; omega
  · intro b hb
    rw [isEmptyFunc_float64_iff]; omega
  · exact isEmptyFunc_float32_iff name
  · exact isEmptyFunc_float64_iff name

/-- The minimum int8, -128, has the bit pattern 0x80 and is not empty. -/
theorem numeric_zero_bits_amended_witness :
    (-2 ^ 7 ≤ (-128 : Int) ∧ (-128 : Int) < 2 ^ 7) ∧
    (isEmptyFunc ⟨"int8", .Int8⟩ (-128 : Int) = true ↔ twosComplement 8 (-128) = 0) :=
  ⟨⟨by norm_num, by norm_num⟩,
   (numeric_zero_bits_amended "int8").1.1 (-128) (by norm_num) (by norm_num)⟩

/-- C9: for the string kind the predicate of isEmptyFunc is true exactly when the
string has byte length zero; a string holding only a space, a tab, a newline or a
single NUL byte is not empty. -/
theorem isEmptyFunc_string_iff_length_zero (name : String) :
    (∀ s : List UInt8, isEmptyFunc ⟨name, .String⟩ s = true ↔ s.length = 0) ∧
    isEmptyFunc ⟨name, .String⟩ ([] : List UInt8) = true ∧
    isEmptyFunc ⟨name, .String⟩ ([0x20] : List UInt8) = false ∧
    isEmptyFunc ⟨name, .String⟩ ([0x09] : List UInt8) = false ∧
    isEmptyFunc ⟨name, .String⟩ ([0x0a] : List UInt8) = false ∧
    isEmptyFunc ⟨name, .String⟩ ([0x00] : List UInt8) = false ∧
    isEmptyFunc ⟨name, .String⟩ ([0x20, 0x09, 0x0a] : List UInt8) = false := by
  refine ⟨?_, rfl, rfl, rfl, rfl, rfl, rfl⟩
  intro s
  cases s with
  | nil => exact ⟨fun _ => rfl, fun _ => rfl⟩
  | cons x xs =>
    constructor
    · intro h
      exact absurd (show false = true from h) (by decide)
    · intro h
      simp at h

/-- C10: for the slice kind the predicate of isEmptyFunc is true exactly when the
length of the slice is 0, for the nil slice and for a non-nil slice of length
zero alike; a slice with at least one element is never empty, also when its
elements are zero integers, zero bytes, nil pointers or empty strings. -/
theorem isEmptyFunc_slice_iff_length_zero (name : String) :
    (∀ s : Option (List Value),
      isEmptyFunc ⟨name, .Slice⟩ s = true ↔ UnsafeSliceType.UnsafeLengthOf s = 0) ∧
    isEmptyFunc ⟨name, .Slice⟩ (none : Option (List Value)) = true ∧
    isEmptyFunc ⟨name, .Slice⟩ (some [] : Option (List Value)) = true ∧
    (∀ (x : Value) (xs : List Value), isEmptyFunc ⟨name, .Slice⟩ (some (x :: xs)) = false) ∧
    isEmptyFunc ⟨name, .Slice⟩ (some [Value.int 0]) = false ∧
    isEmptyFunc ⟨name, .Slice⟩ (some [Value.uint 0, Value.uint 0]) = false ∧
    isEmptyFunc ⟨name, .Slice⟩ (some [Value.ptr none]) = false ∧
    isEmptyFunc ⟨name, .Slice⟩ (some [Value.string []]) = false := by
  refine ⟨?_, rfl, rfl, ?_, rfl, rfl, rfl, rfl⟩
  · intro s
    show (UnsafeSliceType.UnsafeLengthOf s == 0) = true ↔ _
    simp
  · intro x xs
    rfl

/-- C11: for the pointer kind the predicate of isEmptyFunc is true exactly when
the pointer is nil; a non-nil pointer is not empty whatever it points at, a zero
int64, false, the empty string, +0.0 or -0.0 included. A pointer field tagged for
omission is written by the field encoder as the index of the non-null branch
followed by the value pointed at: 0x02 0x00 for a pointer to the int64 0 under
the union of null and long, likewise for false, the empty string, +0.0 and -0.0
under their unions, and 0x00 alone for the nil pointer; the records of the two
tests are 0x02 0x00 followed by the string foo. -/
theorem isEmptyFunc_ptr_iff_nil (name : String) (w : Writer) :
    (∀ p : Option Value, isEmptyFunc ⟨name, .Ptr⟩ p = true ↔ p = none) ∧
    (∀ t : Value, isEmptyFunc ⟨name, .Ptr⟩ (some t) = false) ∧
    (isEmptyFunc ⟨name, .Ptr⟩ (some (Value.int 0)) = false ∧
     isEmptyFunc ⟨name, .Ptr⟩ (some (Value.bool false)) = false ∧
     isEmptyFunc ⟨name, .Ptr⟩ (some (Value.string [])) = false ∧
     isEmptyFunc ⟨name, .Ptr⟩ (some (Value.float64 0)) = false ∧
     isEmptyFunc ⟨name, .Ptr⟩ (some (Value.float64 0x8000000000000000)) = false) ∧
    (∀ v : Int,
      encodeLeaf (.union [.null, .long]) true ⟨name, .Ptr⟩ (some (Value.int v) : Option Value) w
        = ⟨w.buf ++ ([0x02] ++ varint (zigzag 64 v)), w.Error⟩) ∧
    encodeLeaf (.union [.null, .long]) true ⟨name, .Ptr⟩ (some (Value.int 0) : Option Value) w
      = ⟨w.buf ++ [0x02, 0x00], w.Error⟩ ∧
    encodeLeaf (.union [.null, .boolean]) true ⟨name, .Ptr⟩
        (some (Value.bool false) : Option Value) w
      = ⟨w.buf ++ [0x02, 0x00], w.Error⟩ ∧
    encodeLeaf (.union [.null, .string]) true ⟨name, .Ptr⟩
        (some (Value.string []) : Option Value) w
      = ⟨w.buf ++ [0x02, 0x00], w.Error⟩ ∧
    encodeLeaf (.union [.null, .double]) true ⟨name, .Ptr⟩
        (some (Value.float64 0) : Option Value) w
      = ⟨w.buf ++ [0x02, 0x00, 0x00, 0x00, 0x00, 0x00, 0x00, 0x00, 0x00], w.Error⟩ ∧
    encodeLeaf (.union [.null, .double]) true ⟨name, .Ptr⟩
        (some (Value.float64 0x8000000000000000) : Option Value) w
      = ⟨w.buf ++ [0x02, 0x00, 0x00, 0x00, 0x00, 0x00, 0x00, 0x00, 0x80], w.Error⟩ ∧
    encodeLeaf (.union [.null, .long]) true ⟨name, .Ptr⟩ (none : Option Value) w
      = ⟨w.buf ++ [0x00], w.Error⟩ ∧
    Encode nullableLongSchema
        (.struct [(omitTag "a", .val ptrInt64Type (some (Value.int 0) : Option Value)),
          (plainTag "b", .val stringType foo)])
      = ⟨[0x02, 0x00, 0x06, 0x66, 0x6f, 0x6f], none⟩ ∧
    Encode (.record "test" [("a", .union [.null, .string], some .null), ("b", .string, none)])
        (.struct [(omitTag "a", .val ptrStringType (some (Value.string []) : Option Value)),
          (plainTag "b", .val stringType foo)])
      = ⟨[0x02, 0x00, 0x06, 0x66, 0x6f, 0x6f], none⟩ := by
  have hsome : ∀ t : Value, isEmptyFunc ⟨name, .Ptr⟩ (some t) = false := fun _ => rfl
  have hnone : isEmptyFunc ⟨name, .Ptr⟩ (none : Option Value) = true := rfl
  have hl1 : varint (zigzag 64 1) = [0x02] := by decide
  have hl0 : varint (zigzag 64 0) = [0x00] := by decide
  have hgen : ∀ v : Int,
      encodeLeaf (.union [.null, .long]) true ⟨name, .Ptr⟩ (some (Value.int v) : Option Value) w
        = ⟨w.buf ++ ([0x02] ++ varint (zigzag 64 v)), w.Error⟩ := by
    intro v
    simp [encodeLeaf, toValue, encodeValue, encodeValue.encodeBranch, Value.deref,
      Schema.accepts, Writer.WriteLong, hl1]
  refine ⟨?_, hsome, ⟨rfl, rfl, rfl, rfl, rfl⟩, hgen, ?_, ?_, ?_, ?_, ?_, ?_, by decide,
    by decide⟩
  · intro p
    cases p with
    | none => simp [hnone]
    | some t => simp [hsome t]
  · rw [hgen 0, hl0]
    rfl
  · simp [encodeLeaf, toValue, encodeValue, encodeValue.encodeBranch, Value.deref,
      Schema.accepts, Writer.WriteLong, Writer.WriteBool, hl1]
  · simp [encodeLeaf, toValue, encodeValue, encodeValue.encodeBranch, Value.deref,
      Schema.accepts, Writer.WriteLong, Writer.WriteString, Writer.WriteBytes, hl1, hl0]
  · have hb : leBytes 8 0 = [0x00, 0x00, 0x00, 0x00, 0x00, 0x00, 0x00, 0x00] := by decide
    simp [encodeLeaf, toValue, encodeValue, encodeValue.encodeBranch, Value.deref,
      Schema.accepts, Writer.WriteLong, Writer.WriteDouble, hl1, hb]
  · have hb : leBytes 8 0x8000000000000000
        = [0x00, 0x00, 0x00, 0x00, 0x00, 0x00, 0x00, 0x80] := by decide
    simp [encodeLeaf, toValue, encodeValue, encodeValue.encodeBranch, Value.deref,
      Schema.accepts, Writer.WriteLong, Writer.WriteDouble, hl1, hb]
  · simp [encodeLeaf, toValue, encodeValue, encodeValue.encodeBranch, Value.deref,
      Schema.accepts, Writer.WriteLong, hl0]

/-- C12, as stated, fails: a non-nil pointer to a non-nil byte slice of length
zero is not judged empty. -/
theorem ptr_to_empty_bytes_counterexample :
    ¬ (isEmptyFunc ⟨"*[]byte", .Ptr⟩ (some (Value.slice (some []))) = true) := by
  intro h
  exact absurd (show false = true from h) (by decide)

/-- C12, amended: a present (non-nil) reference is never judged empty, also when
it points at a zero-length byte sequence (a non-nil empty byte slice or the empty
string): the pointer predicate tests the reference for nil only. The length rule
applies to a byte sequence that is the value itself: a non-nil byte slice of
length zero and the empty string are empty. -/
theorem ptr_to_empty_bytes_amended (name : String) :
    (∀ t : Value, isEmptyFunc ⟨name, .Ptr⟩ (some t) = false) ∧
    isEmptyFunc ⟨name, .Ptr⟩ (some (Value.slice (some []))) = false ∧
    isEmptyFunc ⟨name, .Ptr⟩ (some (Value.string [])) = false ∧
    isEmptyFunc ⟨name, .Slice⟩ (some [] : Option (List Value)) = true ∧
    isEmptyFunc ⟨name, .String⟩ ([] : List UInt8) = true :=
  ⟨fun _ => rfl, rfl, rfl, rfl, rfl⟩

/-- C13: for the map kind the predicate of isEmptyFunc is true exactly when the
map is nil or holds zero entries; a map with at least one entry is not empty, and
with omission a non-nil map with zero entries is encoded exactly as the nil map
is, as the null index alone. -/
theorem isEmptyFunc_map_iff_nil_or_no_entries (name : String)
    (enc : ValEncoder (Option (List (Value × Value)))) (nullIdx typeIdx : Int) (w : Writer) :
    (∀ m : Option (List (Value × Value)),
      isEmptyFunc ⟨name, .Map⟩ m = true ↔ m = none ∨ m = some []) ∧
    (∀ (kv : Value × Value) (rest : List (Value × Value)),
      isEmptyFunc ⟨name, .Map⟩ (some (kv :: rest)) = false) ∧
    omitEmptyEncoder.Encode ⟨enc, nullIdx, typeIdx, isEmptyFunc ⟨name, .Map⟩⟩ (some []) w
      = omitEmptyEncoder.Encode ⟨enc, nullIdx, typeIdx, isEmptyFunc ⟨name, .Map⟩⟩ none w ∧
    omitEmptyEncoder.Encode ⟨enc, nullIdx, typeIdx, isEmptyFunc ⟨name, .Map⟩⟩ (some []) w
      = w.WriteInt nullIdx ∧
    omitEmptyEncoder.Encode ⟨enc, 0, 1, isEmptyFunc ⟨name, .Map⟩⟩ (some []) w
      = ⟨w.buf ++ [0x00], w.Error⟩ := by
  have hnil : isEmptyFunc ⟨name, .Map⟩ (none : Option (List (Value × Value))) = true := rfl
  have hemp : isEmptyFunc ⟨name, .Map⟩ (some [] : Option (List (Value × Value))) = true := rfl
  have hcons : ∀ (kv : Value × Value) (rest : List (Value × Value)),
      isEmptyFunc ⟨name, .Map⟩ (some (kv :: rest)) = false := fun _ _ => rfl
  have hz : varint (zigzag 32 0) = [0x00] := by decide
  refine ⟨?_, hcons, ?_, ?_, ?_⟩
  · intro m
    cases m with
    | none => simp [hnil]
    | some l =>
      cases l with
      | nil => simp [hemp]
      | cons kv rest => simp [hcons kv rest]
  · simp [omitEmptyEncoder.Encode, hnil, hemp]
  · simp [omitEmptyEncoder.Encode, hemp]
  · simp [omitEmptyEncoder.Encode, hemp, Writer.WriteInt, hz]

/-- C14: for the struct and array kinds isEmptyFunc, in both of its declarations,
returns the constant-false predicate: no struct and no array is empty, the
all-zero struct and the zero-length array included. -/
theorem isEmptyFunc_struct_array_never_empty (name : String) :
    (∀ v : List Value, isEmptyFunc ⟨name, .Struct⟩ v = false) ∧
    (∀ v : List Value, isEmptyFunc ⟨name, .Array⟩ v = false) ∧
    (∀ v : List Value, empty_check.isEmptyFunc ⟨name, .Struct⟩ v = false) ∧
    (∀ v : List Value, empty_check.isEmptyFunc ⟨name, .Array⟩ v = false) ∧
    isEmptyFunc ⟨name, .Struct⟩ [Value.int 0, Value.string [], Value.bool false] = false ∧
    isEmptyFunc ⟨name, .Struct⟩ ([] : List Value) = false ∧
    isEmptyFunc ⟨name, .Array⟩ ([] : List Value) = false ∧
    isEmptyFunc ⟨name, .Array⟩ [Value.int 0, Value.int 0] = false :=
  ⟨fun _ => rfl, fun _ => rfl, fun _ => rfl, fun _ => rfl, rfl, rfl, rfl, rfl⟩

/-- C15, as stated, fails at the array of length zero: the rule of encoding/json
makes it empty, isEmptyFunc does not. -/
theorem json_omitempty_counterexample :
    isEmptyFunc ⟨"[0]int64", .Array⟩ ([] : List Value)
      ≠ jsonIsEmptyValue .Array ([] : List Value) := by
  decide

/-- C15, amended: on every kind other than array and uintptr isEmptyFunc agrees
with the emptiness rule of encoding/json; an array is never empty, whatever its
length. -/
theorem json_omitempty_amended (name : String) :
    (∀ (k : Kind) (v : HostVal k), k ≠ .Array → k ≠ .Uintptr →
      isEmptyFunc ⟨name, k⟩ v = jsonIsEmptyValue k v) ∧
    (∀ v : List Value, isEmptyFunc ⟨name, .Array⟩ v = false) := by
  refine ⟨?_, fun _ => rfl⟩
  intro k v hA hU
  cases k
  case Array => exact absurd rfl hA
  case Uintptr => exact absurd rfl hU
  case Bool => cases v <;> rfl
  case Map =>
    cases v with
    | none => rfl
    | some l => cases l <;> rfl
  case Slice => rfl
  case String => cases v <;> rfl
  case Ptr => cases v <;> rfl
  all_goals rfl

/-- The empty string has kind string; for it isEmptyFunc and the rule of
encoding/json agree. -/
theorem json_omitempty_amended_witness :
    (Kind.String ≠ Kind.Array ∧ Kind.String ≠ Kind.Uintptr) ∧
    isEmptyFunc ⟨"string", .String⟩ ([] : List UInt8)
      = jsonIsEmptyValue .String ([] : List UInt8) :=
  ⟨⟨by decide, by decide⟩,
   (json_omitempty_amended "string").1 .String ([] : List UInt8) (by decide) (by decide)⟩

/-! ## The record codec -/

/-- A schema that is not a union with a null branch is not a nullable union. -/
theorem nullable_none_of_no_null_branch (type : Schema) (h : type.hasNullBranch = false) :
    type.nullable = none := by
  unfold Schema.nullable
  split <;> simp_all [Schema.hasNullBranch]

/-- C16: when the schema type of a field is not a union with a null branch the
omission flag is a no-op: the field is encoded exactly as without the flag, by
the general rule, so a zero or empty host value is written as its actual value
(long 0, int 0 and false as 0x00, the empty string, empty bytes and the empty
array as 0x00, the double 0.0 as eight zero bytes), and a record field with the
default 100 and the host value 0 is written as 0x00, not as that default and not
as a null index. -/
theorem omitEmpty_noop_non_nullable (type : Schema) (typ : GoType) (v : HostVal typ.Kind)
    (w : Writer) (s : List UInt8) (h : type.hasNullBranch = false) :
    encodeLeaf type true typ v w = encodeLeaf type false typ v w ∧
    encodeLeaf type true typ v w = encodeValue type (toValue typ.Kind v) w ∧
    (encodeLeaf .long true int64Type (0 : Int) w = ⟨w.buf ++ [0x00], w.Error⟩ ∧
     encodeLeaf .int true int32Type (0 : Int) w = ⟨w.buf ++ [0x00], w.Error⟩ ∧
     encodeLeaf .boolean true boolType false w = ⟨w.buf ++ [0x00], w.Error⟩ ∧
     encodeLeaf .string true stringType ([] : List UInt8) w = ⟨w.buf ++ [0x00], w.Error⟩ ∧
     encodeLeaf .bytes true bytesType (some [] : Option (List Value)) w
       = ⟨w.buf ++ [0x00], w.Error⟩ ∧
     encodeLeaf .double true float64Type (0 : Nat) w
       = ⟨w.buf ++ [0, 0, 0, 0, 0, 0, 0, 0], w.Error⟩ ∧
     encodeLeaf (.array .string) true stringSliceType (some [] : Option (List Value)) w
       = ⟨w.buf ++ [0x00], w.Error⟩) ∧
    Encode (.record "test" [("a", .long, some (.number 100)), ("b", .string, none)])
        (.struct [(omitTag "a", .val int64Type (0 : Int)), (plainTag "b", .val stringType s)])
      = ⟨[0x00] ++ (varint (zigzag 64 s.length) ++ s), none⟩ ∧
    Encode (.record "test" [("a", .string, some (.string [0x64])), ("b", .string, none)])
        (.struct [(omitTag "a", .val stringType ([] : List UInt8)),
          (plainTag "b", .val stringType foo)])
      = ⟨[0x00, 0x06, 0x66, 0x6f, 0x6f], none⟩ := by
  have hn := nullable_none_of_no_null_branch type h
  have hz : varint (zigzag 64 0) = [0x00] := by decide
  refine ⟨?_, ?_, ⟨rfl, rfl, rfl, ?_, ?_, rfl, rfl⟩, rfl, rfl⟩
  · simp [encodeLeaf, hn]
  · simp [encodeLeaf, hn]
  · show (w.WriteString []) = _
    simp [Writer.WriteString, Writer.WriteBytes, Writer.WriteLong, hz]
  · show (w.WriteBytes []) = _
    simp [Writer.WriteBytes, Writer.WriteLong, hz]

/-- The long schema has no null branch; a tagged int64 0 is written as 0x00. -/
theorem omitEmpty_noop_non_nullable_witness :
    Schema.long.hasNullBranch = false ∧
    encodeLeaf .long true int64Type (0 : Int) emptyWriter
      = encodeValue .long (Value.int 0) emptyWriter :=
  ⟨rfl, (omitEmpty_noop_non_nullable .long int64Type (0 : Int) emptyWriter [] rfl).2.1⟩

/-! ### Round trip of the primitive long -/

theorem toUInt8_toNat (m : Nat) (h : m < 256) : (Nat.toUInt8 m).toNat = m :=
  UInt8.toNat_ofNat_of_lt h

theorem toUInt8_lt_128 (m : Nat) (h : m < 256) : (Nat.toUInt8 m < 128) ↔ m < 128 := by
  rw [UInt8.lt_def, BitVec.lt_def]
  have : (Nat.toUInt8 m).toBitVec.toNat = m := toUInt8_toNat m h
  rw [this]
  rfl

/-- Exclusive or with the all-ones pattern of a width complements within it. -/
theorem xor_all_ones (n x : Nat) (h : x < 2 ^ n) : x ^^^ (2 ^ n - 1) = 2 ^ n - 1 - x := by
  apply Nat.eq_of_testBit_eq
  intro i
  have : 2 ^ n - 1 - x = 2 ^ n - (x + 1) := by omega
  rw [this, Nat.testBit_two_pow_sub_succ h, Nat.testBit_xor, Nat.testBit_two_pow_sub_one]
  by_cases hi : i < n
  · simp [hi]
  · have hx : x.testBit i = false := by
      apply Nat.testBit_lt_two_pow
      exact lt_of_lt_of_le h (Nat.pow_le_pow_right (by norm_num) (by omega))
    simp [hi, hx]

/-- The zigzag transform over 64 bits sends a non-negative v to 2v and a negative
v to -2v - 1. -/
theorem zigzag64_eq (v : Int) (hlo : -2 ^ 63 ≤ v) (hhi : v < 2 ^ 63) :
    zigzag 64 v = if 0 ≤ v then (2 * v).toNat else (-2 * v - 1).toNat := by
  unfold zigzag
  rw [Int.shiftRight_eq_div_pow]
  by_cases hv : 0 ≤ v
  · have h1 : v / ((2 ^ (64 - 1) : Nat) : Int) = 0 := by
      norm_num
      omega
    rw [h1, if_pos hv]
    have h2 : v * 2 % 2 ^ 64 = 2 * v := by omega
    rw [h2]
    simp
  · have h1 : v / ((2 ^ (64 - 1) : Nat) : Int) = -1 := by
      norm_num
      omega
    rw [h1, if_neg hv]
    have h2 : ((-1 : Int) % 2 ^ 64).toNat = 2 ^ 64 - 1 := by decide
    have h3 : (v * 2 % 2 ^ 64).toNat < 2 ^ 64 := by omega
    rw [h2, xor_all_ones 64 _ h3]
    omega

theorem unzigzag_zigzag64 (v : Int) (hlo : -2 ^ 63 ≤ v) (hhi : v < 2 ^ 63) :
    unzigzag (zigzag 64 v) = v := by
  rw [zigzag64_eq v hlo hhi]
  unfold unzigzag
  by_cases hv : 0 ≤ v
  · rw [if_pos hv]
    split <;> omega
  · rw [if_neg hv]
    split <;> omega

theorem zigzag64_lt (v : Int) (hlo : -2 ^ 63 ≤ v) (hhi : v < 2 ^ 63) :
    zigzag 64 v < 2 ^ 64 := by
  rw [zigzag64_eq v hlo hhi]
  split <;> omega

/-- A varint of a number below 128^(k+1) is read back within k+1 bytes. -/
theorem decodeVarint_varintFuel (k : Nat) :
    ∀ (n f : Nat) (rest : List UInt8), n < 128 ^ (k + 1) → n ≤ f →
      decodeVarint (k + 1) (varintFuel f n ++ rest) = some (n, rest) := by
  induction k with
  | zero =>
    intro n f rest hn hf
    have hn' : n < 128 := by simpa using hn
    have hb : Nat.toUInt8 n < 128 := (toUInt8_lt_128 n (by omega)).2 hn'
    cases f with
    | zero => simp [varintFuel, decodeVarint, hb, toUInt8_toNat n (by omega)]
    | succ f => simp [varintFuel, decodeVarint, hn', hb, toUInt8_toNat n (by omega)]
  | succ k ih =>
    intro n f rest hn hf
    by_cases hn' : n < 128
    · have hb : Nat.toUInt8 n < 128 := (toUInt8_lt_128 n (by omega)).2 hn'
      cases f with
      | zero => simp [varintFuel, decodeVarint, hb, toUInt8_toNat n (by omega)]
      | succ f => simp [varintFuel, decodeVarint, hn', hb, toUInt8_toNat n (by omega)]
    · cases f with
      | zero => omega
      | succ f =>
        have hb : ¬ Nat.toUInt8 (n % 128 + 128) < 128 := by
          rw [toUInt8_lt_128 _ (by omega)]
          omega
        have hdiv : n / 128 < 128 ^ (k + 1) := by
          rw [Nat.div_lt_iff_lt_mul (by norm_num)]
          calc n < 128 ^ (k + 1 + 1) := hn
            _ = 128 ^ (k + 1) * 128 := by ring
        have hrec := ih (n / 128) f rest hdiv (by omega)
        simp only [varintFuel, if_neg hn', List.cons_append, decodeVarint, if_neg hb, hrec,
          toUInt8_toNat _ (show n % 128 + 128 < 256 by omega)]
        congr 2
        omega

/-- A primitive long is read back from its encoding. -/
theorem readLong_writeLong (v : Int) (rest : List UInt8)
    (hlo : -2 ^ 63 ≤ v) (hhi : v < 2 ^ 63) :
    readLong (varint (zigzag 64 v) ++ rest) = some (v, rest) := by
  have hlt : zigzag 64 v < 128 ^ (9 + 1) :=
    lt_trans (zigzag64_lt v hlo hhi) (by norm_num)
  unfold readLong varint
  rw [decodeVarint_varintFuel 9 _ _ rest hlt le_rfl]
  simp [unzigzag_zigzag64 v hlo hhi]

/-- A length-prefixed byte sequence is read back from its encoding. -/
theorem readBytes_writeBytes (s rest : List UInt8) (hs : s.length < 2 ^ 63) :
    readBytes (varint (zigzag 64 s.length) ++ (s ++ rest)) = some (s, rest) := by
  unfold readBytes
  rw [readLong_writeLong (s.length : Int) (s ++ rest) (by omega) (by exact_mod_cast hs)]
  simp [takeBytes]

/-- The encoding of the record with the tagged int64 field a and the string
field b against the schema with the nullable long a and the string b. -/
theorem encode_nullableLong (v : Int) (s : List UInt8) :
    Encode nullableLongSchema
        (.struct [(omitTag "a", .val int64Type v), (plainTag "b", .val stringType s)])
      = ⟨(if v = 0 then [0x00] else [0x02] ++ varint (zigzag 64 v))
          ++ (varint (zigzag 64 s.length) ++ s), none⟩ := by
  have hsa : (Host.struct [(omitTag "a", .val int64Type v),
      (plainTag "b", .val stringType s)]).source "a" = some (omitTag "a", .val int64Type v) := rfl
  have hsb : (Host.struct [(omitTag "a", .val int64Type v),
      (plainTag "b", .val stringType s)]).source "b" = some (plainTag "b", .val stringType s) := rfl
  have hn : (Schema.union [.null, .long]).nullable = some (0, 1, .long) := rfl
  have hz : varint (zigzag 32 0) = [0x00] := by decide
  have ho : varint (zigzag 32 1) = [0x02] := by decide
  simp only [Encode, nullableLongSchema, encodeHost, encodeHost.encodeFields, hsa, hsb]
  by_cases hv : v = 0
  · subst hv
    rfl
  · have hE : isEmptyFunc int64Type v = false := by
      simp [isEmptyFunc, int64Type, hv]
    simp [encodeLeaf, omitTag, plainTag, int64Type, stringType, hn, omitEmptyEncoder.Encode,
      hv, isEmptyFunc, toValue, encodeValue, Writer.WriteInt, Writer.WriteLong, Writer.WriteString,
      Writer.WriteBytes, emptyWriter, hz, ho]

theorem readLong_zero (r : List UInt8) : readLong (0x00 :: r) = some (0, r) := rfl

theorem readLong_one (r : List UInt8) : readLong (0x02 :: r) = some (1, r) := rfl

/-- C17: round trip with the omission asymmetry. For the record with the int64
field a tagged for omission and the string field b, against the schema with the
nullable long a and the string b, decoding the encoded bytes gives b unchanged
and for a the value v unchanged when v is not 0 (the maximum int64 included) and
null when v is 0, and leaves what follows the record in the input untouched. In
general, for an omitEmptyEncoder over a nullable union in either order whose
wrapped encoder writes bytes that the decoder of the branch reads back as d,
decoding gives null when the value is empty and d otherwise: +Inf and the slice
of x, y, z come back unchanged, and 0, false, 0.0 and the empty slice come back
as null. -/
theorem omitEmpty_round_trip (v : Int) (s rest : List UInt8)
    (hlo : -2 ^ 63 ≤ v) (hhi : v < 2 ^ 63) (hs : s.length < 2 ^ 63) :
    decode nullableLongSchema
        ((Encode nullableLongSchema
          (.struct [(omitTag "a", .val int64Type v), (plainTag "b", .val stringType s)])).buf
          ++ rest)
      = some (.record [("a", if v = 0 then .null else .long v), ("b", .string s)], rest) ∧
    (∀ (α : Type) (e : omitEmptyEncoder α) (x : α) (branch : Schema) (out tail : List UInt8)
        (d : Datum),
      (∀ u : Writer, (e.encoder.Encode x u).buf = u.buf ++ out) →
      decode branch (out ++ tail) = some (d, tail) →
      (e.nullIdx = 0 → e.typeIdx = 1 →
        decode (.union [.null, branch]) ((e.Encode x emptyWriter).buf ++ tail)
          = some (if e.isEmpty x then .null else d, tail)) ∧
      (e.nullIdx = 1 → e.typeIdx = 0 →
        decode (.union [branch, .null]) ((e.Encode x emptyWriter).buf ++ tail)
          = some (if e.isEmpty x then .null else d, tail))) ∧
    (Decode (.union [.null, .double])
        (encodeLeaf (.union [.null, .double]) true float64Type (0x7ff0000000000000 : Nat)
          emptyWriter).buf
      = some (.double 0x7ff0000000000000) ∧
     Decode (.union [.null, .array .string])
        (encodeLeaf (.union [.null, .array .string]) true stringSliceType
          (some [Value.string [0x78], Value.string [0x79], Value.string [0x7a]])
          emptyWriter).buf
      = some (.array [.string [0x78], .string [0x79], .string [0x7a]]) ∧
     Decode (.union [.null, .long])
        (encodeLeaf (.union [.null, .long]) true int64Type (9223372036854775807 : Int)
          emptyWriter).buf
      = some (.long 9223372036854775807)) ∧
    (Decode (.union [.null, .long])
        (encodeLeaf (.union [.null, .long]) true int64Type (0 : Int) emptyWriter).buf
      = some .null ∧
     Decode (.union [.null, .boolean])
        (encodeLeaf (.union [.null, .boolean]) true boolType false emptyWriter).buf
      = some .null ∧
     Decode (.union [.null, .double])
        (encodeLeaf (.union [.null, .double]) true float64Type (0 : Nat) emptyWriter).buf
      = some .null ∧
     Decode (.union [.null, .array .string])
        (encodeLeaf (.union [.null, .array .string]) true stringSliceType
          (some [] : Option (List Value)) emptyWriter).buf
      = some .null) := by
  have hz : varint (zigzag 32 0) = [0x00] := by decide
  have ho : varint (zigzag 32 1) = [0x02] := by decide
  refine ⟨?_, ?_, ⟨rfl, rfl, rfl⟩, ⟨rfl, rfl, rfl, rfl⟩⟩
  · rw [encode_nullableLong]
    have hb := readBytes_writeBytes s rest hs
    by_cases hv : v = 0
    · simp [hv, nullableLongSchema, decode, decode.decodeFields, decode.decodeBranch,
        readLong_zero, hb]
    · have hl := readLong_writeLong v (varint (zigzag 64 s.length) ++ (s ++ rest)) hlo hhi
      simp [hv, nullableLongSchema, decode, decode.decodeFields, decode.decodeBranch,
        readLong_one, hl, hb]
  · intro α e x branch out tail d hout hdec
    constructor
    · intro h0 h1
      cases hE : e.isEmpty x with
      | true =>
        simp [omitEmptyEncoder.Encode, hE, h0, Writer.WriteInt, emptyWriter, hz, decode,
          decode.decodeBranch, readLong_zero]
      | false =>
        simp [omitEmptyEncoder.Encode, hE, h1, hout, Writer.WriteInt, emptyWriter, ho, decode,
          decode.decodeBranch, readLong_one, hdec]
    · intro h1 h0
      cases hE : e.isEmpty x with
      | true =>
        simp [omitEmptyEncoder.Encode, hE, h1, Writer.WriteInt, emptyWriter, ho, decode,
          decode.decodeBranch, readLong_one]
      | false =>
        simp [omitEmptyEncoder.Encode, hE, h0, hout, Writer.WriteInt, emptyWriter, hz, decode,
          decode.decodeBranch, readLong_zero, hdec]

/-- The record with a = 0 and b = "foo" decodes to a null a and b = "foo". -/
theorem omitEmpty_round_trip_witness :
    (-2 ^ 63 ≤ (0 : Int) ∧ (0 : Int) < 2 ^ 63 ∧ foo.length < 2 ^ 63) ∧
    decode nullableLongSchema
        ((Encode nullableLongSchema
          (.struct [(omitTag "a", .val int64Type (0 : Int)),
            (plainTag "b", .val stringType foo)])).buf ++ [])
      = some (.record [("a", .null), ("b", .string foo)], []) :=
  ⟨⟨by norm_num, by norm_num, by decide⟩,
   (omitEmpty_round_trip 0 foo [] (by norm_num) (by norm_num) (by decide)).1⟩

/-- C19: a schema field with a default and without a host source, struct field
or map key, is written as its default literal, whatever the writer holds and
whatever the other fields are: the default 27 of a long gives 0x36 before any
value s of the field b, for a struct and for a map; the default null of the
union of null and string gives 0x00; a sub-record default is written field by
field, 1000 and then the string. -/
theorem default_when_no_host_field (name : String) (type : Schema) (lit : Literal)
    (rest : List (String × Schema × Option Literal))
    (source : String → Option (FieldTag × Host)) (w : Writer) (s : List UInt8)
    (h : source name = none) :
    encodeHost.encodeFields ((name, type, some lit) :: rest) source w
      = (if (encodeLiteral type lit w).Error.isSome then encodeLiteral type lit w
          else encodeHost.encodeFields rest source (encodeLiteral type lit w)) ∧
    Encode (.record "test" [("a", .long, some (.number 27)), ("b", .string, none)])
        (.struct [(plainTag "b", .val stringType s)])
      = ⟨[0x36] ++ (varint (zigzag 64 s.length) ++ s), none⟩ ∧
    Encode (.record "test" [("a", .long, some (.number 27)), ("b", .string, none)])
        (.dynMap [("b", .val stringType s)])
      = ⟨[0x36] ++ (varint (zigzag 64 s.length) ++ s), none⟩ ∧
    Encode (.record "test" [("a", .union [.null, .string], some .null), ("b", .string, none)])
        (.struct [(plainTag "b", .val stringType s)])
      = ⟨[0x00] ++ (varint (zigzag 64 s.length) ++ s), none⟩ ∧
    Encode (.record "parent"
          [("a", longStringSchema,
              some (.object [("a", .number 1000), ("b", .string [0x64, 0x65, 0x66, 0x20, 0x62])])),
           ("b", .string, none)])
        (.struct [(plainTag "b", .val stringType s)])
      = ⟨[0xd0, 0x0f, 0x0a, 0x64, 0x65, 0x66, 0x20, 0x62]
          ++ (varint (zigzag 64 s.length) ++ s), none⟩ ∧
    Encode (.record "test" [("a", .long, some (.number 27)), ("b", .string, none)])
        (.struct [(plainTag "b", .val stringType foo)])
      = ⟨[0x36, 0x06, 0x66, 0x6f, 0x6f], none⟩ := by
  refine ⟨?_, rfl, rfl, rfl, rfl, by decide⟩
  simp only [encodeHost.encodeFields, h]

/-- A struct that declares b alone gives no source for a, and the default 27 of
a is written before b. -/
theorem default_when_no_host_field_witness :
    (Host.struct [(plainTag "b", .val stringType foo)]).source "a" = none ∧
    encodeHost.encodeFields [("a", .long, some (.number 27)), ("b", .string, none)]
        (Host.struct [(plainTag "b", .val stringType foo)]).source emptyWriter
      = ⟨[0x36, 0x06, 0x66, 0x6f, 0x6f], none⟩ :=
  ⟨rfl,
   ((default_when_no_host_field "a" .long (.number 27) [("b", .string, none)]
      (Host.struct [(plainTag "b", .val stringType foo)]).source emptyWriter []
      rfl).1).trans (by decide)⟩

/-- Recording an error leaves the writer with an error. -/
theorem fail_isSome (w : Writer) (msg : String) : (w.fail msg).Error.isSome = true := by
  unfold Writer.fail
  split
  · next e he => simp [he]
  · rfl

/-- A schema field without a default and without a host source makes the
encoding of the fields fail. -/
theorem encodeFields_missing (fields : List (String × Schema × Option Literal))
    (source : String → Option (FieldTag × Host)) (name : String) (type : Schema)
    (hmem : (name, type, none) ∈ fields) (hsrc : source name = none) (w : Writer) :
    (encodeHost.encodeFields fields source w).Error.isSome = true := by
  induction fields generalizing w with
  | nil => cases hmem
  | cons f rest ih =>
    obtain ⟨n, t, d⟩ := f
    simp only [encodeHost.encodeFields]
    split
    · next herr => exact herr
    · next herr =>
      rcases List.mem_cons.1 hmem with heq | hrest
      · exfalso
        apply herr
        injection heq with h1 h2
        injection h2 with h3 h4
        subst h1; subst h3; subst h4
        simp only [hsrc]
        exact fail_isSome w _
      · exact ih hrest _

/-- C20: encoding a struct or a map that supplies no source for a schema field
without a default fails with an error, wherever the field stands in the schema;
so do the struct that lacks the field a, the map that lacks the key a, the struct
whose field b is unexported, and the struct that embeds an int. -/
theorem missing_required_field_fails (recName name : String) (type : Schema)
    (fields : List (String × Schema × Option Literal))
    (hostFields : List (FieldTag × Host)) (entries : List (String × Host)) (w : Writer)
    (hmem : (name, type, none) ∈ fields)
    (hstruct : (Host.struct hostFields).source name = none)
    (hmap : (Host.dynMap entries).source name = none) :
    (encodeHost (.record recName fields) (.struct hostFields) w).Error.isSome = true ∧
    (encodeHost (.record recName fields) (.dynMap entries) w).Error.isSome = true ∧
    (Encode longStringSchema (.struct [(plainTag "b", .val stringType foo)])).Error.isSome
      = true ∧
    (Encode longStringSchema (.dynMap [("b", .val stringType foo)])).Error.isSome = true ∧
    (Encode longStringSchema
      (.struct [(plainTag "a", .val int64Type (27 : Int)),
        (unexportedTag "b", .val stringType foo)])).Error.isSome = true ∧
    (Encode longStringSchema
      (.struct [(plainTag "b", .val stringType foo),
        (embeddedTag "TestEmbedInt", .val ⟨"TestEmbedInt", .Int⟩ (27 : Int))])).Error.isSome
      = true := by
  refine ⟨?_, ?_, by decide, by decide, by decide, by decide⟩
  · simp only [encodeHost]
    exact encodeFields_missing fields _ name type hmem hstruct w
  · simp only [encodeHost]
    exact encodeFields_missing fields _ name type hmem hmap w

/-- The struct and the map that hold b alone supply no source for the field a of
the schema with the fields a and b, and encoding them fails. -/
theorem missing_required_field_fails_witness :
    (("a", Schema.long, none) ∈ [("a", Schema.long, (none : Option Literal)),
        ("b", Schema.string, none)] ∧
      (Host.struct [(plainTag "b", .val stringType foo)]).source "a" = none ∧
      (Host.dynMap [("b", .val stringType foo)]).source "a" = none) ∧
    (encodeHost longStringSchema (.struct [(plainTag "b", .val stringType foo)])
      emptyWriter).Error.isSome = true :=
  ⟨⟨by simp, rfl, rfl⟩,
   (missing_required_field_fails "test" "a" .long [("a", .long, none), ("b", .string, none)]
      [(plainTag "b", .val stringType foo)] [("b", .val stringType foo)] emptyWriter
      (by simp) rfl rfl).1⟩

/-! ### The modelled encoders do not read the writer -/

theorem shift_Error (b : List UInt8) (w : Writer) : (w.shift b).Error = w.Error := rfl

theorem shift_WriteInt (b : List UInt8) (w : Writer) (i : Int) :
    (w.shift b).WriteInt i = (w.WriteInt i).shift b := by
  simp [Writer.shift, Writer.WriteInt]

theorem shift_WriteLong (b : List UInt8) (w : Writer) (i : Int) :
    (w.shift b).WriteLong i = (w.WriteLong i).shift b := by
  simp [Writer.shift, Writer.WriteLong]

theorem shift_WriteBool (b : List UInt8) (w : Writer) (x : Bool) :
    (w.shift b).WriteBool x = (w.WriteBool x).shift b := by
  simp [Writer.shift, Writer.WriteBool]

theorem shift_WriteFloat (b : List UInt8) (w : Writer) (x : Nat) :
    (w.shift b).WriteFloat x = (w.WriteFloat x).shift b := by
  simp [Writer.shift, Writer.WriteFloat]

theorem shift_WriteDouble (b : List UInt8) (w : Writer) (x : Nat) :
    (w.shift b).WriteDouble x = (w.WriteDouble x).shift b := by
  simp [Writer.shift, Writer.WriteDouble]

theorem shift_WriteBytes (b : List UInt8) (w : Writer) (x : List UInt8) :
    (w.shift b).WriteBytes x = (w.WriteBytes x).shift b := by
  simp [Writer.shift, Writer.WriteBytes, Writer.WriteLong]

theorem shift_WriteString (b : List UInt8) (w : Writer) (x : List UInt8) :
    (w.shift b).WriteString x = (w.WriteString x).shift b := by
  simp [Writer.WriteString, shift_WriteBytes]

theorem shift_fail (b : List UInt8) (w : Writer) (msg : String) :
    (w.shift b).fail msg = (w.fail msg).shift b := by
  unfold Writer.fail
  cases h : w.Error <;> simp [Writer.shift, h]

/-- A fold whose step commutes with shift commutes with shift. -/
theorem foldl_shift {β : Type} (b : List UInt8) (f : Writer → β → Writer)
    (hf : ∀ (u : Writer) (x : β), f (u.shift b) x = (f u x).shift b) (l : List β) :
    ∀ u : Writer, l.foldl f (u.shift b) = (l.foldl f u).shift b := by
  induction l with
  | nil => intro u; rfl
  | cons x rest ih =>
    intro u
    simp only [List.foldl_cons, hf, ih]

mutual

/-- The encoder of a value appends the same bytes and reports the same error
whatever bytes the writer holds. -/
theorem encodeValue_shift : ∀ (s : Schema) (v : Value) (b : List UInt8) (w : Writer),
    encodeValue s v (w.shift b) = (encodeValue s v w).shift b
  | .null, v, b, w => by
    cases v <;> try simp [encodeValue, shift_fail]
    next t => cases t <;> first | rfl | simp [encodeValue, shift_fail]
  | .boolean, v, b, w => by
    cases v <;> simp [encodeValue, shift_fail, shift_WriteBool]
  | .int, v, b, w => by
    cases v <;> simp [encodeValue, shift_fail, shift_WriteInt]
  | .long, v, b, w => by
    cases v <;> simp [encodeValue, shift_fail, shift_WriteLong]
  | .float, v, b, w => by
    cases v <;> simp [encodeValue, shift_fail, shift_WriteFloat]
  | .double, v, b, w => by
    cases v <;> simp [encodeValue, shift_fail, shift_WriteDouble]
  | .bytes, v, b, w => by
    cases v <;> simp [encodeValue, shift_fail]
    next x =>
      cases bytesOf (x.getD []) <;> simp [shift_fail, shift_WriteBytes]
  | .string, v, b, w => by
    cases v <;> simp [encodeValue, shift_fail, shift_WriteString]
  | .array items, v, b, w => by
    cases v <;> simp only [encodeValue, shift_fail]
    next x =>
      have hf : ∀ (u : Writer) (e : Value),
          (if (u.shift b).Error.isSome then u.shift b else encodeValue items e (u.shift b))
            = (if u.Error.isSome then u else encodeValue items e u).shift b := by
        intro u e
        simp only [shift_Error]
        split
        · rfl
        · exact encodeValue_shift items e b u
      have hfold := foldl_shift b
        (fun (u : Writer) (e : Value) => if u.Error.isSome then u else encodeValue items e u)
        hf (x.getD [])
      by_cases hemp : (x.getD []).isEmpty
      · simp [hemp, shift_WriteLong]
      · simp only [hemp, shift_WriteLong, hfold, shift_Error, apply_ite (Writer.shift b)]
  | .map values, v, b, w => by
    cases v <;> simp only [encodeValue, shift_fail]
    next m =>
      have hf : ∀ (u : Writer) (kv : Value × Value),
          (if (u.shift b).Error.isSome then u.shift b
            else
              match kv.1 with
              | .string k => encodeValue values kv.2 ((u.shift b).WriteString k)
              | _ => (u.shift b).fail "TypeMismatchError")
            = (if u.Error.isSome then u
            else
              match kv.1 with
              | .string k => encodeValue values kv.2 (u.WriteString k)
              | _ => u.fail "TypeMismatchError").shift b := by
        intro u kv
        simp only [shift_Error]
        split
        · rfl
        · split
          · rw [shift_WriteString]
            exact encodeValue_shift values _ b _
          · exact shift_fail b u _
      have hfold := foldl_shift b
        (fun (u : Writer) (kv : Value × Value) =>
          if u.Error.isSome then u
          else
            match kv.1 with
            | .string k => encodeValue values kv.2 (u.WriteString k)
            | _ => u.fail "TypeMismatchError")
        hf (m.getD [])
      by_cases hemp : (m.getD []).isEmpty
      · simp [hemp, shift_WriteLong]
      · simp only [hemp, shift_WriteLong, hfold, shift_Error, apply_ite (Writer.shift b)]
  | .union branches, v, b, w => by
    simp only [encodeValue]
    exact encodeBranch_shift branches 0 v.deref b w
  | .record _ _, v, b, w => by
    cases v <;> simp [encodeValue, shift_fail]

/-- The choice of a union branch and its encoding commute with shift. -/
theorem encodeBranch_shift : ∀ (bs : List Schema) (i : Int) (v : Value) (b : List UInt8)
    (w : Writer),
    encodeValue.encodeBranch bs i v (w.shift b) = (encodeValue.encodeBranch bs i v w).shift b
  | [], i, v, b, w => by
    simp [encodeValue.encodeBranch, shift_fail]
  | x :: rest, i, v, b, w => by
    simp only [encodeValue.encodeBranch]
    split
    · rw [shift_WriteLong]
      exact encodeValue_shift x v b _
    · exact encodeBranch_shift rest (i + 1) v b w

end

mutual

/-- The encoder of a default literal appends the same bytes and reports the same
error whatever bytes the writer holds. -/
theorem encodeLiteral_shift : ∀ (s : Schema) (lit : Literal) (b : List UInt8) (w : Writer),
    encodeLiteral s lit (w.shift b) = (encodeLiteral s lit w).shift b
  | .null, lit, b, w => by
    cases lit <;> first | rfl | simp [encodeLiteral, shift_fail]
  | .boolean, lit, b, w => by
    cases lit <;> simp [encodeLiteral, shift_fail, shift_WriteBool]
  | .int, lit, b, w => by
    cases lit <;> simp [encodeLiteral, shift_fail, shift_WriteInt]
  | .long, lit, b, w => by
    cases lit <;> simp [encodeLiteral, shift_fail, shift_WriteLong]
  | .float, lit, b, w => by
    cases lit <;> simp [encodeLiteral, shift_fail]
  | .double, lit, b, w => by
    cases lit <;> simp [encodeLiteral, shift_fail]
  | .bytes, lit, b, w => by
    cases lit <;> simp [encodeLiteral, shift_fail, shift_WriteBytes]
  | .string, lit, b, w => by
    cases lit <;> simp [encodeLiteral, shift_fail, shift_WriteString]
  | .array items, lit, b, w => by
    cases lit <;> simp only [encodeLiteral, shift_fail]
    next lits =>
      have hf : ∀ (u : Writer) (l : Literal),
          (if (u.shift b).Error.isSome then u.shift b else encodeLiteral items l (u.shift b))
            = (if u.Error.isSome then u else encodeLiteral items l u).shift b := by
        intro u l
        simp only [shift_Error]
        split
        · rfl
        · exact encodeLiteral_shift items l b u
      have hfold := foldl_shift b
        (fun (u : Writer) (l : Literal) =>
          if u.Error.isSome then u else encodeLiteral items l u)
        hf lits
      by_cases hemp : lits.isEmpty
      · simp [hemp, shift_WriteLong]
      · simp only [hemp, shift_WriteLong, hfold, shift_Error, apply_ite (Writer.shift b)]
  | .map _, lit, b, w => by
    cases lit <;> simp [encodeLiteral, shift_fail]
  | .union branches, lit, b, w => by
    simp only [encodeLiteral]
    exact literalBranch_shift branches 0 lit b w
  | .record _ fields, lit, b, w => by
    cases lit <;> simp only [encodeLiteral, shift_fail]
    next entries => exact literalFields_shift fields entries b w

/-- The choice of a union branch for a literal commutes with shift. -/
theorem literalBranch_shift : ∀ (bs : List Schema) (i : Int) (lit : Literal)
    (b : List UInt8) (w : Writer),
    encodeLiteral.literalBranch bs i lit (w.shift b)
      = (encodeLiteral.literalBranch bs i lit w).shift b
  | [], i, lit, b, w => by
    simp [encodeLiteral.literalBranch, shift_fail]
  | x :: rest, i, lit, b, w => by
    simp only [encodeLiteral.literalBranch]
    split
    · rw [shift_WriteLong]
      exact encodeLiteral_shift x lit b _
    · exact literalBranch_shift rest (i + 1) lit b w

/-- The fields of a sub-record default commute with shift. -/
theorem literalFields_shift : ∀ (fields : List (String × Schema × Option Literal))
    (entries : List (String × Literal)) (b : List UInt8) (w : Writer),
    encodeLiteral.literalFields fields entries (w.shift b)
      = (encodeLiteral.literalFields fields entries w).shift b
  | [], entries, b, w => by
    simp [encodeLiteral.literalFields]
  | (name, type, dflt) :: rest, entries, b, w => by
    simp only [encodeLiteral.literalFields]
    have h1 : (match (entries.find? (fun (e : String × Literal) => e.1 == name)).map
            (fun (e : String × Literal) => e.2) with
        | some lit => encodeLiteral type lit (w.shift b)
        | none =>
          match dflt with
          | some lit => encodeLiteral type lit (w.shift b)
          | none => (w.shift b).fail "MissingFieldError")
        = (match (entries.find? (fun (e : String × Literal) => e.1 == name)).map
            (fun (e : String × Literal) => e.2) with
        | some lit => encodeLiteral type lit w
        | none =>
          match dflt with
          | some lit => encodeLiteral type lit w
          | none => w.fail "MissingFieldError").shift b := by
      split
      · exact encodeLiteral_shift type _ b w
      · split
        · exact encodeLiteral_shift type _ b w
        · exact shift_fail b w _
    rw [h1]
    simp only [shift_Error]
    split
    · rfl
    · exact literalFields_shift rest entries b _

end

/-- The encoder of a field that is a value of a Go type, with or without the
omission flag, appends the same bytes whatever bytes the writer holds. -/
theorem encodeLeaf_shift (type : Schema) (flag : Bool) (typ : GoType) (v : HostVal typ.Kind)
    (b : List UInt8) (w : Writer) :
    encodeLeaf type flag typ v (w.shift b) = (encodeLeaf type flag typ v w).shift b := by
  unfold encodeLeaf
  split
  · split
    · simp only [omitEmptyEncoder.Encode]
      split
      · exact shift_WriteInt b w _
      · rw [shift_WriteInt]
        exact encodeValue_shift _ _ b _
    · exact encodeValue_shift _ _ b w
  · exact encodeValue_shift _ _ b w

mutual

/-- The encoder of a host value appends the same bytes and reports the same
error whatever bytes the writer holds. -/
theorem encodeHost_shift : ∀ (s : Schema) (h : Host) (b : List UInt8) (w : Writer),
    encodeHost s h (w.shift b) = (encodeHost s h w).shift b
  | .record _ fields, h, b, w => by
    cases h with
    | val typ v => simp [encodeHost, shift_fail]
    | struct hostFields =>
      simp only [encodeHost]
      exact encodeFields_shift fields _ b w
    | dynMap entries =>
      simp only [encodeHost]
      exact encodeFields_shift fields _ b w
    | nil => simp [encodeHost, shift_fail]
  | .null, h, b, w => by
    cases h <;> simp [encodeHost, shift_fail, encodeLeaf_shift, encodeValue_shift]
  | .boolean, h, b, w => by
    cases h <;> simp [encodeHost, shift_fail, encodeLeaf_shift, encodeValue_shift]
  | .int, h, b, w => by
    cases h <;> simp [encodeHost, shift_fail, encodeLeaf_shift, encodeValue_shift]
  | .long, h, b, w => by
    cases h <;> simp [encodeHost, shift_fail, encodeLeaf_shift, encodeValue_shift]
  | .float, h, b, w => by
    cases h <;> simp [encodeHost, shift_fail, encodeLeaf_shift, encodeValue_shift]
  | .double, h, b, w => by
    cases h <;> simp [encodeHost, shift_fail, encodeLeaf_shift, encodeValue_shift]
  | .bytes, h, b, w => by
    cases h <;> simp [encodeHost, shift_fail, encodeLeaf_shift, encodeValue_shift]
  | .string, h, b, w => by
    cases h <;> simp [encodeHost, shift_fail, encodeLeaf_shift, encodeValue_shift]
  | .array _, h, b, w => by
    cases h <;> simp [encodeHost, shift_fail, encodeLeaf_shift, encodeValue_shift]
  | .map _, h, b, w => by
    cases h <;> simp [encodeHost, shift_fail, encodeLeaf_shift, encodeValue_shift]
  | .union _, h, b, w => by
    cases h <;> simp [encodeHost, shift_fail, encodeLeaf_shift, encodeValue_shift]

/-- The fields of a record commute with shift. -/
theorem encodeFields_shift : ∀ (fields : List (String × Schema × Option Literal))
    (source : String → Option (FieldTag × Host)) (b : List UInt8) (w : Writer),
    encodeHost.encodeFields fields source (w.shift b)
      = (encodeHost.encodeFields fields source w).shift b
  | [], source, b, w => by
    simp [encodeHost.encodeFields]
  | (name, type, dflt) :: rest, source, b, w => by
    simp only [encodeHost.encodeFields]
    have h1 : (match source name with
        | some (tag, .val typ v) => encodeLeaf type tag.omitEmpty typ v (w.shift b)
        | some (_, h) => encodeHost type h (w.shift b)
        | none =>
          match dflt with
          | some lit => encodeLiteral type lit (w.shift b)
          | none => (w.shift b).fail "MissingFieldError")
        = (match source name with
        | some (tag, .val typ v) => encodeLeaf type tag.omitEmpty typ v w
        | some (_, h) => encodeHost type h w
        | none =>
          match dflt with
          | some lit => encodeLiteral type lit w
          | none => w.fail "MissingFieldError").shift b := by
      split
      · exact encodeLeaf_shift type _ _ _ b w
      · exact encodeHost_shift type _ b w
      · split
        · exact encodeLiteral_shift type _ b w
        · exact shift_fail b w _
    rw [h1]
    simp only [shift_Error]
    split
    · rfl
    · exact encodeFields_shift rest source b _

end

/-! ## Encode and the writer -/

/-- C22: the bytes Encode appends do not depend on what the writer holds. For an
empty value they are the int encoding of nullIdx on every writer; for any value,
when the wrapped encoder appends the bytes out to whatever writer it is given,
Encode appends the same bytes to every writer, and a second call on the writer
the first call left appends them once more behind the first copy, which stays
intact. The encoders modelled for the codec compiler are of that kind: the
encoder of a field and the encoder of a host value append the same bytes behind
any bytes b put in front of the writer, so a host value that encodes without an
error, encoded twice on one writer, gives its bytes twice. The record with a = 0
and b = "test" of the test, encoded twice, gives the same six bytes twice. -/
theorem omitEmpty_bytes_independent_of_writer {α : Type} (e : omitEmptyEncoder α) (v : α) :
    (e.isEmpty v = true →
      ∀ w : Writer, (e.Encode v w).buf = w.buf ++ varint (zigzag 32 e.nullIdx)) ∧
    (∀ out : List UInt8, (∀ u : Writer, (e.encoder.Encode v u).buf = u.buf ++ out) →
      (∀ w : Writer, (e.Encode v w).buf
        = w.buf ++ (if e.isEmpty v then varint (zigzag 32 e.nullIdx)
            else varint (zigzag 32 e.typeIdx) ++ out)) ∧
      (∀ w : Writer, (e.Encode v (e.Encode v w)).buf
        = (w.buf ++ (if e.isEmpty v then varint (zigzag 32 e.nullIdx)
              else varint (zigzag 32 e.typeIdx) ++ out))
            ++ (if e.isEmpty v then varint (zigzag 32 e.nullIdx)
              else varint (zigzag 32 e.typeIdx) ++ out))) ∧
    (∀ (type : Schema) (flag : Bool) (typ : GoType) (x : HostVal typ.Kind) (b : List UInt8)
        (w : Writer),
      encodeLeaf type flag typ x (w.shift b) = (encodeLeaf type flag typ x w).shift b) ∧
    (∀ (schema : Schema) (h : Host) (b : List UInt8) (w : Writer),
      encodeHost schema h (w.shift b) = (encodeHost schema h w).shift b) ∧
    (∀ (schema : Schema) (h : Host), (encodeHost schema h emptyWriter).Error = none →
      encodeHost schema h (encodeHost schema h emptyWriter)
        = ⟨(encodeHost schema h emptyWriter).buf ++ (encodeHost schema h emptyWriter).buf,
            none⟩) ∧
    encodeHost nullableLongSchema
        (.struct [(omitTag "a", .val int64Type (0 : Int)),
          (plainTag "b", .val stringType testBytes)]) emptyWriter
      = ⟨[0x00, 0x08, 0x74, 0x65, 0x73, 0x74], none⟩ ∧
    encodeHost nullableLongSchema
        (.struct [(omitTag "a", .val int64Type (0 : Int)),
          (plainTag "b", .val stringType testBytes)])
        (encodeHost nullableLongSchema
          (.struct [(omitTag "a", .val int64Type (0 : Int)),
            (plainTag "b", .val stringType testBytes)]) emptyWriter)
      = ⟨[0x00, 0x08, 0x74, 0x65, 0x73, 0x74] ++ [0x00, 0x08, 0x74, 0x65, 0x73, 0x74], none⟩ := by
  have hone : ∀ out : List UInt8, (∀ u : Writer, (e.encoder.Encode v u).buf = u.buf ++ out) →
      ∀ w : Writer, (e.Encode v w).buf
        = w.buf ++ (if e.isEmpty v then varint (zigzag 32 e.nullIdx)
            else varint (zigzag 32 e.typeIdx) ++ out) := by
    intro out hout w
    cases hE : e.isEmpty v with
    | true => simp [omitEmptyEncoder.Encode, hE, Writer.WriteInt]
    | false => simp [omitEmptyEncoder.Encode, hE, hout, Writer.WriteInt]
  refine ⟨?_, ?_, encodeLeaf_shift, encodeHost_shift, ?_, by decide, by decide⟩
  · intro hE w
    simp [omitEmptyEncoder.Encode, hE, Writer.WriteInt]
  · intro out hout
    refine ⟨hone out hout, ?_⟩
    intro w
    rw [hone out hout (e.Encode v w), hone out hout w]
  · intro schema h herr
    have hr : encodeHost schema h emptyWriter
        = emptyWriter.shift (encodeHost schema h emptyWriter).buf := by
      cases hw : encodeHost schema h emptyWriter with
      | mk buf err =>
        rw [hw] at herr
        simp only at herr
        subst herr
        simp [Writer.shift, emptyWriter]
    rw [hr, encodeHost_shift, ← hr]
    simp [Writer.shift, herr]

/-- The int64 27 behind the union of null and long: the wrapped long encoder
appends 0x36 to every writer, and two calls on the empty writer give 0x02 0x36
twice. -/
theorem omitEmpty_bytes_independent_of_writer_witness :
    (∀ u : Writer, (longEncoder.Encode (27 : Int) u).buf = u.buf ++ [0x36]) ∧
    (omitEmptyEncoder.Encode ⟨longEncoder, 0, 1, isEmptyFunc int64Type⟩ (27 : Int)
      (omitEmptyEncoder.Encode ⟨longEncoder, 0, 1, isEmptyFunc int64Type⟩ (27 : Int)
        emptyWriter)).buf = [0x02, 0x36, 0x02, 0x36] :=
  ⟨fun _ => rfl,
   (((omitEmpty_bytes_independent_of_writer
      ⟨longEncoder, 0, 1, isEmptyFunc int64Type⟩ (27 : Int)).2.1 [0x36] (fun _ => rfl)).2
      emptyWriter).trans (by decide)⟩

/-- C23: for an empty host value Encode writes the null index and records no
error whatever the wrapped encoder would do, since the wrapped encoder is not
reached: the writer is w.WriteInt nullIdx for every wrapped encoder, in
particular for one that fails on every call. A uint 0 and an empty or nil
map[string]int64, whose types cannot be resolved against the union, give 0x00
and no error, while the uint 1 reaches the wrapped encoder and fails. -/
theorem omitEmpty_empty_never_fails {α : Type} (e : omitEmptyEncoder α) (v : α) (w : Writer)
    (h : e.isEmpty v = true) :
    (∀ enc : ValEncoder α,
      omitEmptyEncoder.Encode ⟨enc, e.nullIdx, e.typeIdx, e.isEmpty⟩ v w
        = w.WriteInt e.nullIdx) ∧
    (∀ msg : String,
      (omitEmptyEncoder.Encode ⟨errorEncoder α msg, e.nullIdx, e.typeIdx, e.isEmpty⟩ v w).Error
        = w.Error) ∧
    (w.Error = none → (e.Encode v w).Error = none) ∧
    (omitEmptyEncoder.Encode
        ⟨errorEncoder Nat "TypeMismatchError", 0, 1, isEmptyFunc uintType⟩ (0 : Nat) emptyWriter
      = ⟨[0x00], none⟩ ∧
     omitEmptyEncoder.Encode
        ⟨errorEncoder (Option (List (Value × Value))) "TypeMismatchError", 0, 1,
          isEmptyFunc mapStringInt64Type⟩ (some []) emptyWriter
      = ⟨[0x00], none⟩ ∧
     omitEmptyEncoder.Encode
        ⟨errorEncoder (Option (List (Value × Value))) "TypeMismatchError", 0, 1,
          isEmptyFunc mapStringInt64Type⟩ none emptyWriter
      = ⟨[0x00], none⟩ ∧
     (omitEmptyEncoder.Encode
        ⟨errorEncoder Nat "TypeMismatchError", 0, 1, isEmptyFunc uintType⟩ (1 : Nat)
        emptyWriter).Error.isSome = true) ∧
    (Encode nullableLongSchema
        (.struct [(omitTag "a", .val uintType (0 : Nat)), (plainTag "b", .val stringType foo)])
      = ⟨[0x00, 0x06, 0x66, 0x6f, 0x6f], none⟩ ∧
     (Encode nullableLongSchema
        (.struct [(omitTag "a", .val uintType (1 : Nat)),
          (plainTag "b", .val stringType foo)])).Error.isSome = true) := by
  have hE : ∀ enc : ValEncoder α,
      omitEmptyEncoder.Encode ⟨enc, e.nullIdx, e.typeIdx, e.isEmpty⟩ v w
        = w.WriteInt e.nullIdx := by
    intro enc
    simp [omitEmptyEncoder.Encode, h]
  refine ⟨hE, ?_, ?_, ⟨by decide, rfl, rfl, by decide⟩, by decide, by decide⟩
  · intro msg
    rw [hE]
    rfl
  · intro hw
    have := hE e.encoder
    simp only [] at this
    rw [this]
    exact hw

/-- The uint 0 is empty, and with a wrapped encoder that always fails it is
still written as 0x00 without an error. -/
theorem omitEmpty_empty_never_fails_witness :
    isEmptyFunc uintType (0 : Nat) = true ∧
    omitEmptyEncoder.Encode
        ⟨errorEncoder Nat "TypeMismatchError", 0, 1, isEmptyFunc uintType⟩ (0 : Nat) emptyWriter
      = ⟨[0x00], none⟩ :=
  ⟨rfl,
   ((omitEmpty_empty_never_fails
      ⟨errorEncoder Nat "TypeMismatchError", 0, 1, isEmptyFunc uintType⟩ (0 : Nat) emptyWriter
      rfl).1 (errorEncoder Nat "TypeMismatchError")).trans (by decide)⟩

/-- C24: for a host value that is not empty Encode writes the type index and
then runs the wrapped encoder on the writer that holds it; nothing is rolled back
when the wrapped encoder fails. If the wrapped encoder leaves the bytes part
behind and an error, the writer ends with what it held, the int encoding of
typeIdx, part, and that error; a wrapped encoder that fails at once leaves the
index alone; the slice of the string x and an integer, under the union of null
and array of string, leaves the index, the count, the string x and the error. -/
theorem omitEmpty_no_rollback {α : Type} (e : omitEmptyEncoder α) (v : α) (w : Writer)
    (h : e.isEmpty v = false) :
    e.Encode v w = e.encoder.Encode v (w.WriteInt e.typeIdx) ∧
    (∀ (part : List UInt8) (err : String),
      (∀ u : Writer, e.encoder.Encode v u = ⟨u.buf ++ part, some err⟩) →
      e.Encode v w = ⟨w.buf ++ (varint (zigzag 32 e.typeIdx) ++ part), some err⟩) ∧
    (∀ msg : String, w.Error = none →
      omitEmptyEncoder.Encode ⟨errorEncoder α msg, e.nullIdx, e.typeIdx, e.isEmpty⟩ v w
        = ⟨w.buf ++ varint (zigzag 32 e.typeIdx), some msg⟩) ∧
    encodeLeaf (.union [.null, .array .string]) true stringSliceType
        (some [Value.string [0x78], Value.int 1]) emptyWriter
      = ⟨[0x02, 0x04, 0x02, 0x78], some "TypeMismatchError"⟩ ∧
    encodeLeaf (.union [.null, .long]) true uintType (1 : Nat) emptyWriter
      = ⟨[0x02], some "TypeMismatchError"⟩ := by
  have hE : e.Encode v w = e.encoder.Encode v (w.WriteInt e.typeIdx) := by
    simp [omitEmptyEncoder.Encode, h]
  refine ⟨hE, ?_, ?_, by decide, by decide⟩
  · intro part err hpart
    rw [hE, hpart]
    simp [Writer.WriteInt]
  · intro msg hw
    simp [omitEmptyEncoder.Encode, h, errorEncoder, Writer.fail, Writer.WriteInt, hw]

/-- The uint 1 is not empty; with a wrapped encoder that fails at once the writer
keeps the type index 0x02 and holds the error. -/
theorem omitEmpty_no_rollback_witness :
    isEmptyFunc uintType (1 : Nat) = false ∧
    omitEmptyEncoder.Encode
        ⟨errorEncoder Nat "TypeMismatchError", 0, 1, isEmptyFunc uintType⟩ (1 : Nat) emptyWriter
      = ⟨[0x02], some "TypeMismatchError"⟩ :=
  ⟨rfl,
   ((omitEmpty_no_rollback
      ⟨errorEncoder Nat "TypeMismatchError", 0, 1, isEmptyFunc uintType⟩ (1 : Nat) emptyWriter
      rfl).2.2.1 "TypeMismatchError" rfl).trans (by decide)⟩

/-- The zigzag transform over 32 bits sends a non-negative v to 2v and a negative
v to -2v - 1. -/
theorem zigzag32_eq (v : Int) (hlo : -2 ^ 31 ≤ v) (hhi : v < 2 ^ 31) :
    zigzag 32 v = if 0 ≤ v then (2 * v).toNat else (-2 * v - 1).toNat := by
  unfold zigzag
  rw [Int.shiftRight_eq_div_pow]
  by_cases hv : 0 ≤ v
  · have h1 : v / ((2 ^ (32 - 1) : Nat) : Int) = 0 := by
      norm_num
      omega
    rw [h1, if_pos hv]
    have h2 : v * 2 % 2 ^ 32 = 2 * v := by omega
    rw [h2]
    simp
  · have h1 : v / ((2 ^ (32 - 1) : Nat) : Int) = -1 := by
      norm_num
      omega
    rw [h1, if_neg hv]
    have h2 : ((-1 : Int) % 2 ^ 32).toNat = 2 ^ 32 - 1 := by decide
    have h3 : (v * 2 % 2 ^ 32).toNat < 2 ^ 32 := by omega
    rw [h2, xor_all_ones 32 _ h3]
    omega

/-- C25: for every int32 i the primitive int and the primitive long have the
same bytes: the zigzag transform over 32 bits and over 64 bits give the same
number, so the varints agree, WriteInt and WriteLong leave the same writer, the
index Encode writes is the primitive long of that index, and the decoder of a
primitive long reads it back as i. -/
theorem writeInt_eq_writeLong (i : Int) (hlo : -2 ^ 31 ≤ i) (hhi : i < 2 ^ 31) :
    zigzag 32 i = zigzag 64 i ∧
    varint (zigzag 32 i) = varint (zigzag 64 i) ∧
    (∀ w : Writer, w.WriteInt i = w.WriteLong i) ∧
    (∀ (α : Type) (e : omitEmptyEncoder α) (v : α) (w : Writer), e.nullIdx = i →
      e.isEmpty v = true → e.Encode v w = w.WriteLong i) ∧
    (∀ (α : Type) (e : omitEmptyEncoder α) (v : α) (w : Writer), e.typeIdx = i →
      e.isEmpty v = false → e.Encode v w = e.encoder.Encode v (w.WriteLong i)) ∧
    (∀ rest : List UInt8, readLong (varint (zigzag 32 i) ++ rest) = some (i, rest)) := by
  have hz : zigzag 32 i = zigzag 64 i := by
    rw [zigzag32_eq i hlo hhi, zigzag64_eq i (by omega) (by omega)]
  have hw : ∀ w : Writer, w.WriteInt i = w.WriteLong i := by
    intro w
    simp [Writer.WriteInt, Writer.WriteLong, hz]
  refine ⟨hz, by rw [hz], hw, ?_, ?_, ?_⟩
  · intro α e v w hi hE
    simp [omitEmptyEncoder.Encode, hE, hi, hw]
  · intro α e v w hi hE
    simp [omitEmptyEncoder.Encode, hE, hi, hw]
  · intro rest
    rw [hz]
    exact readLong_writeLong i rest (by omega) (by omega)

/-- The index -1, the smallest negative int32 in absolute value, is written as
the byte 0x01 by WriteInt and by WriteLong. -/
theorem writeInt_eq_writeLong_witness :
    (-2 ^ 31 ≤ (-1 : Int) ∧ (-1 : Int) < 2 ^ 31) ∧
    emptyWriter.WriteInt (-1) = emptyWriter.WriteLong (-1) :=
  ⟨⟨by norm_num, by norm_num⟩,
   (writeInt_eq_writeLong (-1) (by norm_num) (by norm_num)).2.2.1 emptyWriter⟩

/-- C26: for the union of null and long and the int64 0, the encoding with
omission is the single byte 0x00, the null index, and the encoding without
omission is the two bytes 0x02 0x00, the index of the long branch and the long
0: one byte against two, on every writer, and for the record of the test five
bytes against six. -/
theorem omission_shorter_for_zero (name : String) (w : Writer) :
    omitEmptyEncoder.Encode ⟨longEncoder, 0, 1, isEmptyFunc ⟨name, .Int64⟩⟩ (0 : Int) w
      = ⟨w.buf ++ [0x00], w.Error⟩ ∧
    encodeValue (.union [.null, .long]) (.int 0) w = ⟨w.buf ++ [0x02, 0x00], w.Error⟩ ∧
    encodeLeaf (.union [.null, .long]) true ⟨name, .Int64⟩ (0 : Int) w
      = ⟨w.buf ++ [0x00], w.Error⟩ ∧
    encodeLeaf (.union [.null, .long]) false ⟨name, .Int64⟩ (0 : Int) w
      = ⟨w.buf ++ [0x02, 0x00], w.Error⟩ ∧
    (encodeLeaf (.union [.null, .long]) true ⟨name, .Int64⟩ (0 : Int) w).buf.length
      < (encodeLeaf (.union [.null, .long]) false ⟨name, .Int64⟩ (0 : Int) w).buf.length ∧
    (encodeLeaf (.union [.null, .long]) true ⟨name, .Int64⟩ (0 : Int) w).buf.length
      = w.buf.length + 1 ∧
    (encodeLeaf (.union [.null, .long]) false ⟨name, .Int64⟩ (0 : Int) w).buf.length
      = w.buf.length + 2 ∧
    Encode nullableLongSchema
        (.struct [(omitTag "a", .val int64Type (0 : Int)), (plainTag "b", .val stringType foo)])
      = ⟨[0x00, 0x06, 0x66, 0x6f, 0x6f], none⟩ ∧
    Encode nullableLongSchema
        (.struct [(plainTag "a", .val int64Type (0 : Int)), (plainTag "b", .val stringType foo)])
      = ⟨[0x02, 0x00, 0x06, 0x66, 0x6f, 0x6f], none⟩ := by
  have hz : varint (zigzag 32 0) = [0x00] := by decide
  have hl1 : varint (zigzag 64 1) = [0x02] := by decide
  have hl0 : varint (zigzag 64 0) = [0x00] := by decide
  have h0 : isEmptyFunc ⟨name, .Int64⟩ (0 : Int) = true := rfl
  have hwith : omitEmptyEncoder.Encode ⟨longEncoder, 0, 1, isEmptyFunc ⟨name, .Int64⟩⟩
      (0 : Int) w = ⟨w.buf ++ [0x00], w.Error⟩ := by
    simp [omitEmptyEncoder.Encode, h0, Writer.WriteInt, hz]
  have hgen : encodeValue (.union [.null, .long]) (.int 0) w
      = ⟨w.buf ++ [0x02, 0x00], w.Error⟩ := by
    simp [encodeValue, encodeValue.encodeBranch, Value.deref, Schema.accepts, Writer.WriteLong,
      hl1, hl0]
  have hon : encodeLeaf (.union [.null, .long]) true ⟨name, .Int64⟩ (0 : Int) w
      = ⟨w.buf ++ [0x00], w.Error⟩ := by
    simp [encodeLeaf, Schema.nullable, omitEmptyEncoder.Encode, h0, Writer.WriteInt, hz]
  have hoff : encodeLeaf (.union [.null, .long]) false ⟨name, .Int64⟩ (0 : Int) w
      = ⟨w.buf ++ [0x02, 0x00], w.Error⟩ := by
    simp only [encodeLeaf, Bool.false_and]
    exact hgen
  refine ⟨hwith, hgen, hon, hoff, ?_, ?_, ?_, by decide, by decide⟩
  · rw [hon, hoff]
    simp
  · rw [hon]
    simp
  · rw [hoff]
    simp

/-- C28: isEmptyFunc is a zero-check. For each kind with a case of its own the Go
zero value of the type is empty: false, the integer 0 of each of the ten integer
kinds, +0.0 of float32 and float64, the empty string, the nil slice, the nil map,
the nil pointer and the nil interface; the struct of the test whose three tagged
fields are all zero is written as three null indices. -/
theorem isEmptyFunc_zero_value_empty (name : String) :
    isEmptyFunc ⟨name, .Bool⟩ false = true ∧
    (isEmptyFunc ⟨name, .Int⟩ (0 : Int) = true ∧
     isEmptyFunc ⟨name, .Int8⟩ (0 : Int) = true ∧
     isEmptyFunc ⟨name, .Int16⟩ (0 : Int) = true ∧
     isEmptyFunc ⟨name, .Int32⟩ (0 : Int) = true ∧
     isEmptyFunc ⟨name, .Int64⟩ (0 : Int) = true) ∧
    (isEmptyFunc ⟨name, .Uint⟩ (0 : Nat) = true ∧
     isEmptyFunc ⟨name, .Uint8⟩ (0 : Nat) = true ∧
     isEmptyFunc ⟨name, .Uint16⟩ (0 : Nat) = true ∧
     isEmptyFunc ⟨name, .Uint32⟩ (0 : Nat) = true ∧
     isEmptyFunc ⟨name, .Uint64⟩ (0 : Nat) = true) ∧
    (isEmptyFunc ⟨name, .Float32⟩ (0 : Nat) = true ∧
     isEmptyFunc ⟨name, .Float64⟩ (0 : Nat) = true) ∧
    isEmptyFunc ⟨name, .String⟩ ([] : List UInt8) = true ∧
    isEmptyFunc ⟨name, .Slice⟩ (none : Option (List Value)) = true ∧
    isEmptyFunc ⟨name, .Map⟩ (none : Option (List (Value × Value))) = true ∧
    isEmptyFunc ⟨name, .Ptr⟩ (none : Option Value) = true ∧
    isEmptyFunc ⟨name, .Interface⟩ (⟨none, none⟩ : Eface Value) = true ∧
    Encode allNullableSchema
        (.struct [(omitTag "a", .val int64Type (0 : Int)),
          (omitTag "b", .val stringType ([] : List UInt8)),
          (omitTag "c", .val boolType false)])
      = ⟨[0x00, 0x00, 0x00], none⟩ := by
  refine ⟨rfl, ⟨rfl, rfl, rfl, rfl, rfl⟩, ⟨rfl, rfl, rfl, rfl, rfl⟩, ⟨?_, ?_⟩, rfl, rfl, rfl,
    rfl, rfl, by decide⟩
  · exact (isEmptyFunc_float32_iff name 0).2 (by norm_num)
  · exact (isEmptyFunc_float64_iff name 0).2 (by norm_num)

/-- C29: the predicate of isEmptyFunc is determined by the kind of the type
alone: two types of one kind, whatever their names, have the same predicate. The
named type MyCustomInt has the predicate of int64 and MyCustomString that of
string, so a zero MyCustomInt and an empty MyCustomString are empty and are
written as the null index. -/
theorem isEmptyFunc_by_kind_alone (typ1 typ2 : GoType) (h : typ1.Kind = typ2.Kind)
    (v : HostVal typ1.Kind) :
    isEmptyFunc typ1 v = isEmptyFunc typ2 (h ▸ v) ∧
    (∀ (name1 name2 : String) (k : Kind) (x : HostVal k),
      isEmptyFunc ⟨name1, k⟩ x = isEmptyFunc ⟨name2, k⟩ x) ∧
    (∀ x : Int, isEmptyFunc myCustomIntType x = isEmptyFunc int64Type x) ∧
    (∀ x : List UInt8, isEmptyFunc myCustomStringType x = isEmptyFunc stringType x) ∧
    isEmptyFunc myCustomIntType (0 : Int) = true ∧
    isEmptyFunc myCustomStringType ([] : List UInt8) = true ∧
    Encode nullableLongSchema
        (.struct [(omitTag "a", .val myCustomIntType (0 : Int)),
          (plainTag "b", .val stringType foo)])
      = ⟨[0x00, 0x06, 0x66, 0x6f, 0x6f], none⟩ ∧
    Encode (.record "test" [("a", .union [.null, .string], some .null), ("b", .string, none)])
        (.struct [(omitTag "a", .val myCustomStringType ([] : List UInt8)),
          (plainTag "b", .val stringType foo)])
      = ⟨[0x00, 0x06, 0x66, 0x6f, 0x6f], none⟩ := by
  refine ⟨?_, fun _ _ _ _ => rfl, fun _ => rfl, fun _ => rfl, rfl, rfl, by decide, by decide⟩
  obtain ⟨n1, k1⟩ := typ1
  obtain ⟨n2, k2⟩ := typ2
  simp only at h
  subst h
  rfl

/-- MyCustomInt and int64 have the same kind, and the same predicate at 0. -/
theorem isEmptyFunc_by_kind_alone_witness :
    myCustomIntType.Kind = int64Type.Kind ∧
    isEmptyFunc myCustomIntType (0 : Int) = isEmptyFunc int64Type (0 : Int) :=
  ⟨rfl, (isEmptyFunc_by_kind_alone myCustomIntType int64Type rfl (0 : Int)).1⟩

/-! ## The two declarations of isEmptyFunc and the remaining kinds -/

/-- C31: the two declarations of isEmptyFunc, in codec_omitempty.go and in
empty_check.go, are extensionally equal: for every type and every value of its
kind the two predicates give the same result, so the two functions are equal. -/
theorem isEmptyFunc_declarations_agree :
    (∀ (typ : GoType) (v : HostVal typ.Kind),
      isEmptyFunc typ v = empty_check.isEmptyFunc typ v) ∧
    (∀ (name : String) (k : Kind) (v : HostVal k),
      isEmptyFunc ⟨name, k⟩ v = empty_check.isEmptyFunc ⟨name, k⟩ v) ∧
    (∀ typ : GoType, isEmptyFunc typ = empty_check.isEmptyFunc typ) := by
  have h : ∀ (typ : GoType) (v : HostVal typ.Kind),
      isEmptyFunc typ v = empty_check.isEmptyFunc typ v := by
    intro typ v
    obtain ⟨name, k⟩ := typ
    cases k <;> rfl
  exact ⟨h, fun name k v => h ⟨name, k⟩ v, fun typ => funext (h typ)⟩

/-! ### Reading back the index Encode writes -/

theorem zigzag32_lt (i : Int) (hlo : -2 ^ 31 ≤ i) (hhi : i < 2 ^ 31) :
    zigzag 32 i < 2 ^ 32 := by
  rw [zigzag32_eq i hlo hhi]
  split <;> omega

theorem zigzag32_eq_zigzag64 (i : Int) (hlo : -2 ^ 31 ≤ i) (hhi : i < 2 ^ 31) :
    zigzag 32 i = zigzag 64 i := by
  rw [zigzag32_eq i hlo hhi, zigzag64_eq i (by omega) (by omega)]

/-- A primitive int is read back from its encoding. -/
theorem readInt_writeInt (i : Int) (rest : List UInt8)
    (hlo : -2 ^ 31 ≤ i) (hhi : i < 2 ^ 31) :
    readInt (varint (zigzag 32 i) ++ rest) = some (i, rest) := by
  have hlt : zigzag 32 i < 128 ^ (4 + 1) :=
    lt_trans (zigzag32_lt i hlo hhi) (by norm_num)
  have hu : unzigzag (zigzag 32 i) = i := by
    rw [zigzag32_eq_zigzag64 i hlo hhi]
    exact unzigzag_zigzag64 i (by omega) (by omega)
  unfold readInt varint
  rw [decodeVarint_varintFuel 4 _ _ rest hlt le_rfl]
  simp [hu]

/-- A primitive int is read back as a primitive long. -/
theorem readLong_writeInt (i : Int) (rest : List UInt8)
    (hlo : -2 ^ 31 ≤ i) (hhi : i < 2 ^ 31) :
    readLong (varint (zigzag 32 i) ++ rest) = some (i, rest) := by
  rw [zigzag32_eq_zigzag64 i hlo hhi]
  exact readLong_writeLong i rest (by omega) (by omega)

/-- The modelled encoder of a value only appends to the writer. -/
theorem encodeValue_appends (s : Schema) (v : Value) (u : Writer) :
    (encodeValue s v u).buf = u.buf ++ (encodeValue s v ⟨[], u.Error⟩).buf := by
  have hu : u = (⟨[], u.Error⟩ : Writer).shift u.buf := by
    cases u
    simp [Writer.shift]
  have h := encodeValue_shift s v u.buf ⟨[], u.Error⟩
  rw [← hu] at h
  rw [h]
  rfl

/-- The bytes Encode appends, when the wrapped encoder only appends. -/
theorem encode_appended {α : Type} (e : omitEmptyEncoder α) (v : α) (w : Writer)
    (out : List UInt8)
    (hout : (e.encoder.Encode v (w.WriteInt e.typeIdx)).buf
      = (w.WriteInt e.typeIdx).buf ++ out) :
    (e.Encode v w).buf.drop w.buf.length
      = (if e.isEmpty v then varint (zigzag 32 e.nullIdx)
          else varint (zigzag 32 e.typeIdx) ++ out) := by
  have hbuf : (e.Encode v w).buf
      = w.buf ++ (if e.isEmpty v then varint (zigzag 32 e.nullIdx)
          else varint (zigzag 32 e.typeIdx) ++ out) := by
    cases hE : e.isEmpty v with
    | true => simp [omitEmptyEncoder.Encode, hE, Writer.WriteInt]
    | false =>
      have h1 : e.Encode v w = e.encoder.Encode v (w.WriteInt e.typeIdx) := by
        simp [omitEmptyEncoder.Encode, hE]
      rw [h1, hout]
      simp [Writer.WriteInt]
  rw [hbuf]
  simp

/-- C32: when nullIdx differs from typeIdx, both int32 values, and the wrapped
encoder only appends to the writer, the bytes Encode appends tell the two cases
apart: the first integer read from them, as a primitive int or as a primitive
long, is nullIdx for an empty value and typeIdx otherwise, so it is nullIdx
exactly when the value is empty, and the output for an empty value is never the
output for this value when it is not empty. The field encoder modelled for a
union of null and one other branch is of that kind: the first integer of what it
appends is the null index 0 exactly when the host value is empty. -/
theorem omitEmpty_output_tells_cases_apart {α : Type} (e : omitEmptyEncoder α) (v : α)
    (w : Writer) (out rest : List UInt8)
    (hnlo : -2 ^ 31 ≤ e.nullIdx) (hnhi : e.nullIdx < 2 ^ 31)
    (htlo : -2 ^ 31 ≤ e.typeIdx) (hthi : e.typeIdx < 2 ^ 31)
    (hne : e.nullIdx ≠ e.typeIdx)
    (hout : (e.encoder.Encode v (w.WriteInt e.typeIdx)).buf
      = (w.WriteInt e.typeIdx).buf ++ out) :
    (e.Encode v w).buf
      = w.buf ++ (if e.isEmpty v then varint (zigzag 32 e.nullIdx)
          else varint (zigzag 32 e.typeIdx) ++ out) ∧
    readInt ((e.Encode v w).buf.drop w.buf.length ++ rest)
      = some (if e.isEmpty v then e.nullIdx else e.typeIdx,
          if e.isEmpty v then rest else out ++ rest) ∧
    readLong ((e.Encode v w).buf.drop w.buf.length ++ rest)
      = some (if e.isEmpty v then e.nullIdx else e.typeIdx,
          if e.isEmpty v then rest else out ++ rest) ∧
    ((readInt ((e.Encode v w).buf.drop w.buf.length ++ rest)).map (fun r => r.1)
        = some e.nullIdx ↔ e.isEmpty v = true) ∧
    ((readLong ((e.Encode v w).buf.drop w.buf.length ++ rest)).map (fun r => r.1)
        = some e.nullIdx ↔ e.isEmpty v = true) ∧
    (∀ x : α, e.isEmpty x = true → e.isEmpty v = false →
      (e.Encode x w).buf ≠ (e.Encode v w).buf) ∧
    (∀ (branch : Schema) (typ : GoType) (x : HostVal typ.Kind) (u : Writer)
        (tail : List UInt8), typ.Kind ≠ .Ptr →
      ((readLong ((encodeLeaf (.union [.null, branch]) true typ x u).buf.drop u.buf.length
          ++ tail)).map (fun r => r.1) = some 0 ↔ isEmptyFunc typ x = true)) := by
  have hbuf : (e.Encode v w).buf
      = w.buf ++ (if e.isEmpty v then varint (zigzag 32 e.nullIdx)
          else varint (zigzag 32 e.typeIdx) ++ out) := by
    cases hE : e.isEmpty v with
    | true => simp [omitEmptyEncoder.Encode, hE, Writer.WriteInt]
    | false =>
      have h1 : e.Encode v w = e.encoder.Encode v (w.WriteInt e.typeIdx) := by
        simp [omitEmptyEncoder.Encode, hE]
      rw [h1, hout]
      simp [Writer.WriteInt]
  have hdrop : (e.Encode v w).buf.drop w.buf.length
      = (if e.isEmpty v then varint (zigzag 32 e.nullIdx)
          else varint (zigzag 32 e.typeIdx) ++ out) := by
    rw [hbuf]
    simp
  have hri : readInt ((e.Encode v w).buf.drop w.buf.length ++ rest)
      = some (if e.isEmpty v then e.nullIdx else e.typeIdx,
          if e.isEmpty v then rest else out ++ rest) := by
    rw [hdrop]
    cases hE : e.isEmpty v with
    | true => simpa using readInt_writeInt e.nullIdx rest hnlo hnhi
    | false => simpa using readInt_writeInt e.typeIdx (out ++ rest) htlo hthi
  have hrl : readLong ((e.Encode v w).buf.drop w.buf.length ++ rest)
      = some (if e.isEmpty v then e.nullIdx else e.typeIdx,
          if e.isEmpty v then rest else out ++ rest) := by
    rw [hdrop]
    cases hE : e.isEmpty v with
    | true => simpa using readLong_writeInt e.nullIdx rest hnlo hnhi
    | false => simpa using readLong_writeInt e.typeIdx (out ++ rest) htlo hthi
  refine ⟨hbuf, hri, hrl, ?_, ?_, ?_, ?_⟩
  · rw [hri]
    cases hE : e.isEmpty v with
    | true => simp
    | false =>
      simp
      exact fun h => hne h.symm
  · rw [hrl]
    cases hE : e.isEmpty v with
    | true => simp
    | false =>
      simp
      exact fun h => hne h.symm
  · intro x hx hv heq
    have hxbuf : (e.Encode x w).buf = w.buf ++ varint (zigzag 32 e.nullIdx) := by
      simp [omitEmptyEncoder.Encode, hx, Writer.WriteInt]
    rw [hxbuf, hbuf, hv] at heq
    have hcancel : varint (zigzag 32 e.nullIdx) = varint (zigzag 32 e.typeIdx) ++ out := by
      simpa using heq
    have h1 := readInt_writeInt e.nullIdx [] hnlo hnhi
    have h2 := readInt_writeInt e.typeIdx (out ++ []) htlo hthi
    rw [hcancel, List.append_assoc, h2] at h1
    injection h1 with h3
    injection h3 with h4 _
    exact hne h4.symm
  · intro branch typ x u tail hk
    have hk2 : (typ.Kind != Kind.Ptr) = true := by simpa using hk
    have hleaf : encodeLeaf (.union [.null, branch]) true typ x u
        = omitEmptyEncoder.Encode
            ⟨⟨fun ptr q => encodeValue branch (toValue typ.Kind ptr) q⟩, 0, 1, isEmptyFunc typ⟩
            x u := by
      simp [encodeLeaf, hk2, Schema.nullable]
    have happ : (omitEmptyEncoder.Encode
          ⟨⟨fun ptr q => encodeValue branch (toValue typ.Kind ptr) q⟩, 0, 1, isEmptyFunc typ⟩
          x u).buf.drop u.buf.length
        = (if isEmptyFunc typ x then varint (zigzag 32 0)
            else varint (zigzag 32 1)
              ++ (encodeValue branch (toValue typ.Kind x) ⟨[], (u.WriteInt 1).Error⟩).buf) :=
      encode_appended
        ⟨⟨fun ptr q => encodeValue branch (toValue typ.Kind ptr) q⟩, 0, 1, isEmptyFunc typ⟩
        x u _ (encodeValue_appends branch (toValue typ.Kind x) (u.WriteInt 1))
    rw [hleaf, happ]
    cases hE : isEmptyFunc typ x with
    | true =>
      have h0 := readLong_writeInt 0 tail (by norm_num) (by norm_num)
      simp only [if_true, h0]
      simp
    | false =>
      have h1 := readLong_writeInt 1
        ((encodeValue branch (toValue typ.Kind x) ⟨[], (u.WriteInt 1).Error⟩).buf ++ tail)
        (by norm_num) (by norm_num)
      rw [← List.append_assoc] at h1
      simp only [Bool.false_eq_true, if_false, h1]
      simp

/-- The int64 27 behind the union of null and long: the indices 0 and 1 differ,
the wrapped long encoder appends 0x36, and the first integer of the output is 1,
not the null index. -/
theorem omitEmpty_output_tells_cases_apart_witness :
    ((-2 ^ 31 ≤ (0 : Int) ∧ (0 : Int) < 2 ^ 31) ∧ (-2 ^ 31 ≤ (1 : Int) ∧ (1 : Int) < 2 ^ 31) ∧
      (0 : Int) ≠ 1 ∧
      (longEncoder.Encode (27 : Int) (emptyWriter.WriteInt 1)).buf
        = (emptyWriter.WriteInt 1).buf ++ [0x36]) ∧
    readInt ((omitEmptyEncoder.Encode ⟨longEncoder, 0, 1, isEmptyFunc int64Type⟩ (27 : Int)
        emptyWriter).buf.drop emptyWriter.buf.length ++ [])
      = some (1, [0x36]) :=
  ⟨⟨⟨by norm_num, by norm_num⟩, ⟨by norm_num, by norm_num⟩, by norm_num, by decide⟩,
   (omitEmpty_output_tells_cases_apart ⟨longEncoder, 0, 1, isEmptyFunc int64Type⟩ (27 : Int)
      emptyWriter [0x36] [] (by norm_num) (by norm_num) (by norm_num) (by norm_num)
      (by norm_num) (by decide)).2.1⟩

/-- C33: for the interface kind the predicate of isEmptyFunc, in both
declarations, is true exactly when the interface value itself is nil, that is
when its first word, the type word, is nil. An interface that holds a typed nil
pointer, a zero integer, the empty string or false has a type word and is not
empty, whatever its data word is. -/
theorem isEmptyFunc_interface_iff_nil (name : String) :
    (∀ i : Eface Value, isEmptyFunc ⟨name, .Interface⟩ i = true ↔ i.typ = none) ∧
    (∀ i : Eface Value, empty_check.isEmptyFunc ⟨name, .Interface⟩ i = true ↔ i.typ = none) ∧
    isEmptyFunc ⟨name, .Interface⟩ (⟨none, none⟩ : Eface Value) = true ∧
    (∀ (t : GoType) (d : Option Value),
      isEmptyFunc ⟨name, .Interface⟩ (⟨some t, d⟩ : Eface Value) = false) ∧
    isEmptyFunc ⟨name, .Interface⟩ (⟨some ⟨"*int64", .Ptr⟩, none⟩ : Eface Value) = false ∧
    isEmptyFunc ⟨name, .Interface⟩
      (⟨some ⟨"*int64", .Ptr⟩, some (Value.ptr none)⟩ : Eface Value) = false ∧
    isEmptyFunc ⟨name, .Interface⟩ (⟨some int64Type, some (Value.int 0)⟩ : Eface Value)
      = false ∧
    isEmptyFunc ⟨name, .Interface⟩ (⟨some stringType, some (Value.string [])⟩ : Eface Value)
      = false ∧
    isEmptyFunc ⟨name, .Interface⟩ (⟨some boolType, some (Value.bool false)⟩ : Eface Value)
      = false := by
  have hiff : ∀ i : Eface Value, isEmptyFunc ⟨name, .Interface⟩ i = true ↔ i.typ = none := by
    intro i
    show i.typ.isNone = true ↔ _
    cases i.typ <;> simp
  have hiff2 : ∀ i : Eface Value,
      empty_check.isEmptyFunc ⟨name, .Interface⟩ i = true ↔ i.typ = none := by
    intro i
    show i.typ.isNone = true ↔ _
    cases i.typ <;> simp
  exact ⟨hiff, hiff2, rfl, fun _ _ => rfl, rfl, rfl, rfl, rfl, rfl⟩

/-- C34: for every kind without a case label of its own isEmptyFunc, in both
declarations, returns the constant-false predicate. These kinds include uintptr,
complex64, complex128, chan, func and unsafe pointer: a zero uintptr, a zero
complex number, a nil channel, a nil function and a nil unsafe pointer are not
empty, and neither is any other value of these kinds. -/
theorem isEmptyFunc_default_case_never_empty (name : String) :
    (∀ (k : Kind) (v : HostVal k), k ∉ dedicatedKinds → isEmptyFunc ⟨name, k⟩ v = false) ∧
    (∀ (k : Kind) (v : HostVal k), k ∉ dedicatedKinds →
      empty_check.isEmptyFunc ⟨name, k⟩ v = false) ∧
    (Kind.Uintptr ∉ dedicatedKinds ∧ Kind.Complex64 ∉ dedicatedKinds ∧
     Kind.Complex128 ∉ dedicatedKinds ∧ Kind.Chan ∉ dedicatedKinds ∧
     Kind.Func ∉ dedicatedKinds ∧ Kind.UnsafePointer ∉ dedicatedKinds ∧
     Kind.Array ∉ dedicatedKinds ∧ Kind.Struct ∉ dedicatedKinds) ∧
    ((∀ v : Nat, isEmptyFunc ⟨name, .Uintptr⟩ v = false) ∧
     (∀ c : Nat × Nat, isEmptyFunc ⟨name, .Complex64⟩ c = false) ∧
     (∀ c : Nat × Nat, isEmptyFunc ⟨name, .Complex128⟩ c = false) ∧
     (∀ isNil : Bool, isEmptyFunc ⟨name, .Chan⟩ isNil = false) ∧
     (∀ isNil : Bool, isEmptyFunc ⟨name, .Func⟩ isNil = false) ∧
     (∀ isNil : Bool, isEmptyFunc ⟨name, .UnsafePointer⟩ isNil = false)) ∧
    (isEmptyFunc ⟨name, .Uintptr⟩ (0 : Nat) = false ∧
     isEmptyFunc ⟨name, .Complex64⟩ ((0, 0) : Nat × Nat) = false ∧
     isEmptyFunc ⟨name, .Complex128⟩ ((0, 0) : Nat × Nat) = false ∧
     isEmptyFunc ⟨name, .Chan⟩ true = false ∧
     isEmptyFunc ⟨name, .Func⟩ true = false ∧
     isEmptyFunc ⟨name, .UnsafePointer⟩ true = false) := by
  refine ⟨?_, ?_, by decide, ⟨fun _ => rfl, fun _ => rfl, fun _ => rfl, fun _ => rfl,
    fun _ => rfl, fun _ => rfl⟩, ⟨rfl, rfl, rfl, rfl, rfl, rfl⟩⟩
  · intro k v hk
    cases k <;> first | rfl | exact absurd (by decide) hk
  · intro k v hk
    cases k <;> first | rfl | exact absurd (by decide) hk

/-- The kind uintptr has no case label, and the zero uintptr is not empty. -/
theorem isEmptyFunc_default_case_never_empty_witness :
    Kind.Uintptr ∉ dedicatedKinds ∧ isEmptyFunc ⟨"uintptr", .Uintptr⟩ (0 : Nat) = false :=
  ⟨by decide,
   (isEmptyFunc_default_case_never_empty "uintptr").1 .Uintptr (0 : Nat) (by decide)⟩

end Avro
